import Mathlib

/-!
# Card-boundary detection engine: a shallow embedding

This file embeds, in Lean 4, the card-boundary detection pipelines of the
repository (auto_crop_card.py, smart_crop_v2.py, smart_crop_card.py,
crop_card.py) and proves or refutes the frozen specification claims about
them.

Modelling conventions:

* A grayscale raster is an `Img`: a width, a height, and a pixel function
  `ℕ → ℕ → ℕ` (row index first, then column index), pixel values being the
  uint8 samples `0..255`.  All numpy reductions are spelled out over
  `List.range`.
* Python floats are idealised as exact rationals `ℚ`.  `int(x)` is `pyInt`
  (truncation toward zero), `x // y` on integers is `Int.fdiv`.
* `sample < mean - k*std` with `std = sqrt(var)` is encoded without square
  roots through the exact real equivalence
  `mean - v > k*sqrt(var) ↔ (mean - v > 0 ∧ (mean - v)^2 > k^2*var)`,
  which holds for every `k ≥ 0` and `var ≥ 0`.
* `np.percentile(xs, q)` (default linear interpolation) is `npPercentile`;
  on an empty selection numpy raises, modelled as `Option.none`.
* The PIL collaborators are modelled from their documented behaviour:
  `FIND_EDGES` is the 3x3 kernel `8*center - (sum of 8 neighbours)` clamped
  to `0..255`, with the one-pixel border copied unchanged from the input;
  `MaxFilter(n)` is the windowed maximum with replicate padding;
  contrast enhancement by factor 2 maps `p` to `m + 2*(p - m)` clamped,
  where `m` is the rounded image mean.  The LANCZOS downsampling of the
  preprocessor is kept abstract: theorems quantify over the working image
  and only use the dimension bookkeeping the source computes
  (`ratio = maxDim / max(w, h)`, working sizes `int(w*ratio)`), so they
  hold for every resampler; a uniform image stays uniform under LANCZOS
  (the weights sum to one), which is the only content fact used.
-/

set_option maxRecDepth 10000

namespace CardCrop

/-- Python `int()` applied to a float: truncation toward zero. -/
def pyInt (q : ℚ) : ℤ := if q < 0 then -⌊-q⌋ else ⌊q⌋

theorem pyInt_intCast (n : ℤ) : pyInt (n : ℚ) = n := by
  unfold pyInt
  split
  · rename_i h
    rw [show (-(n:ℚ)) = ((-n : ℤ) : ℚ) by push_cast; ring, Int.floor_intCast]
    omega
  · exact Int.floor_intCast n

theorem pyInt_of_nonneg {q : ℚ} (h : 0 ≤ q) : pyInt q = ⌊q⌋ := by
  unfold pyInt
  rw [if_neg (not_lt.mpr h)]

theorem pyInt_nonneg {q : ℚ} (h : 0 ≤ q) : 0 ≤ pyInt q := by
  rw [pyInt_of_nonneg h]
  exact Int.floor_nonneg.mpr h

theorem pyInt_mono {a b : ℚ} (h : a ≤ b) : pyInt a ≤ pyInt b := by
  unfold pyInt
  rcases lt_or_le a 0 with ha | ha
  · rw [if_pos ha]
    rcases lt_or_le b 0 with hb | hb
    · rw [if_pos hb]
      have : ⌊-b⌋ ≤ ⌊-a⌋ := Int.floor_mono (by linarith)
      omega
    · rw [if_neg (not_lt.mpr hb)]
      have h5 : (0:ℤ) ≤ ⌊-a⌋ := Int.floor_nonneg.mpr (by linarith)
      have h6 : (0:ℤ) ≤ ⌊b⌋ := Int.floor_nonneg.mpr hb
      omega
  · rw [if_neg (not_lt.mpr ha), if_neg (not_lt.mpr (by linarith))]
    exact Int.floor_mono h

theorem pyInt_le_of_le_int {q : ℚ} {n : ℤ} (h : q ≤ n) : pyInt q ≤ n := by
  calc pyInt q ≤ pyInt (n : ℚ) := pyInt_mono h
  _ = n := pyInt_intCast n

theorem pyInt_le_self {q : ℚ} (h : 0 ≤ q) : (pyInt q : ℚ) ≤ q := by
  rw [pyInt_of_nonneg h]
  exact Int.floor_le q

/-- A crop rectangle `(left, top, right, bottom)`, in pixels. -/
structure Box where
  left : ℤ
  top : ℤ
  right : ℤ
  bottom : ℤ
deriving Repr, DecidableEq

/-- The box invariant the specification asserts, in non-strict form:
`0 ≤ left ≤ right ≤ width` and `0 ≤ top ≤ bottom ≤ height`. -/
def Box.ordered (b : Box) (W H : ℕ) : Prop :=
  0 ≤ b.left ∧ b.left ≤ b.right ∧ b.right ≤ (W:ℤ) ∧
  0 ≤ b.top ∧ b.top ≤ b.bottom ∧ b.bottom ≤ (H:ℤ)

instance (b : Box) (W H : ℕ) : Decidable (b.ordered W H) := by
  unfold Box.ordered
  infer_instance

/-- A single-channel raster: `px i j` is the sample in row `i`, column `j`
(uint8 values `0..255` for grayscale images, edge magnitudes for edge maps). -/
structure Img where
  w : ℕ
  h : ℕ
  px : ℕ → ℕ → ℕ

/-- The uniform (flat-colour) image of intensity `c`. -/
def Img.uniform (w h c : ℕ) : Img := ⟨w, h, fun _ _ => c⟩

/-- Row-major list of all samples (what `np.array(img)` flattens to). -/
def pixelList (g : Img) : List ℕ :=
  ((List.range g.h).map (fun i => (List.range g.w).map (g.px i))).flatten

/-- `np.mean` over all samples (population mean), the integer sample sum
divided by the sample count. -/
def npMean (g : Img) : ℚ :=
  ((pixelList g).sum : ℚ) / ((pixelList g).length : ℚ)

/-- `np.std` squared, i.e. the population variance over all samples:
the mean of the squared deviations, written through the exact algebraic
identity `mean((v - m)^2) = mean(v^2) - m^2` (with `m` the mean), which
holds in exact rational arithmetic and keeps the heavy summation over the
integer samples. -/
def npVar (g : Img) : ℚ :=
  (((((pixelList g).map (fun v => v * v)).sum : ℕ) : ℚ)) / ((pixelList g).length : ℚ)
    - npMean g ^ 2

/-- The comparison `v < mean - k*std`, encoded without square roots:
for `k ≥ 0` and `var ≥ 0` it is equivalent to
`mean - v > 0 ∧ (mean - v)^2 > k^2*var`; `k2` is `k^2`. -/
def ltMeanMinusStd (v : ℕ) (mean var k2 : ℚ) : Bool :=
  decide (0 < mean - (v:ℚ)) && decide (k2 * var < (mean - (v:ℚ))^2)

/-- `np.percentile(xs, q)` with the default linear interpolation:
sort ascending, index `pos = (n-1)*q/100`, interpolate between the
neighbouring order statistics.  Numpy raises on an empty input, modelled
as `none`. -/
def npPercentile (xs : List ℕ) (q : ℚ) : Option ℚ :=
  match xs with
  | [] => none
  | _ :: _ =>
    let s := xs.insertionSort (· ≤ ·)
    let n := s.length
    let pos : ℚ := ((n:ℚ) - 1) * q / 100
    let i : ℕ := ⌊pos⌋.toNat
    let lo : ℚ := (s.getD i 0 : ℕ)
    let hi : ℚ := (s.getD (i+1) (s.getD i 0) : ℕ)
    some (lo + (pos - (i:ℚ)) * (hi - lo))

/-- Count of mask-true pixels in row `i` (`np.sum(mask, axis=1)` entry). -/
def rowCount (m : ℕ → ℕ → Bool) (w i : ℕ) : ℕ :=
  (List.range w).countP (fun j => m i j)

/-- Count of mask-true pixels in column `j` (`np.sum(mask, axis=0)` entry). -/
def colCount (m : ℕ → ℕ → Bool) (h j : ℕ) : ℕ :=
  (List.range h).countP (fun i => m i j)

/-- `np.where(cond)[0]`: the indices `< n` satisfying the predicate,
in increasing order. -/
def whereIdx (n : ℕ) (p : ℕ → Bool) : List ℕ :=
  (List.range n).filter p

/-- First and last entry of an index list (`xs[0]`, `xs[-1]`), when any. -/
def firstLast (l : List ℕ) : Option (ℕ × ℕ) :=
  match l.head?, l.getLast? with
  | some a, some b => some (a, b)
  | _, _ => none

theorem whereIdx_pairwise (n : ℕ) (p : ℕ → Bool) :
    (whereIdx n p).Pairwise (· < ·) :=
  List.Pairwise.sublist (List.filter_sublist _) (List.pairwise_lt_range n)

theorem mem_whereIdx {n : ℕ} {p : ℕ → Bool} {x : ℕ} :
    x ∈ whereIdx n p ↔ x < n ∧ p x = true := by
  unfold whereIdx
  rw [List.mem_filter, List.mem_range]

theorem firstLast_eq_some {l : List ℕ} {a b : ℕ}
    (h : firstLast l = some (a, b)) :
    l.head? = some a ∧ l.getLast? = some b := by
  unfold firstLast at h
  rcases hh : l.head? with _ | x <;> rcases hg : l.getLast? with _ | y <;>
    rw [hh, hg] at h <;> simp_all

theorem firstLast_nil_of_none {l : List ℕ}
    (h : firstLast l = none) : l = [] := by
  cases l with
  | nil => rfl
  | cons x t =>
    exfalso
    unfold firstLast at h
    rcases hg : (x :: t).getLast? with _ | y
    · rw [List.getLast?_eq_head?_reverse, List.head?_eq_none_iff,
        List.reverse_eq_nil_iff] at hg
      exact List.cons_ne_nil x t hg
    · rw [List.head?_cons, hg] at h
      simp at h

theorem head?_mem_self {α : Type} {l : List α} {a : α}
    (h : l.head? = some a) : a ∈ l := by
  cases l with
  | nil => simp at h
  | cons x t =>
    rw [List.head?_cons, Option.some.injEq] at h
    exact h ▸ List.mem_cons_self x t

theorem getLast?_mem_self {α : Type} {l : List α} {a : α}
    (h : l.getLast? = some a) : a ∈ l := by
  rw [List.getLast?_eq_head?_reverse] at h
  have := head?_mem_self h
  exact List.mem_reverse.mp this

theorem head?_le_of_pairwise {l : List ℕ} (hs : l.Pairwise (· < ·))
    {a x : ℕ} (ha : l.head? = some a) (hx : x ∈ l) : a ≤ x := by
  cases l with
  | nil => simp at ha
  | cons y t =>
    rw [List.head?_cons, Option.some.injEq] at ha
    subst ha
    rcases List.mem_cons.mp hx with rfl | hxt
    · exact le_rfl
    · exact le_of_lt ((List.pairwise_cons.mp hs).1 x hxt)

theorem le_getLast?_of_pairwise {l : List ℕ} (hs : l.Pairwise (· < ·))
    {b x : ℕ} (hb : l.getLast? = some b) (hx : x ∈ l) : x ≤ b := by
  rw [List.getLast?_eq_head?_reverse] at hb
  have hs' : l.reverse.Pairwise (· > ·) := (List.pairwise_reverse).mpr hs
  have hx' : x ∈ l.reverse := List.mem_reverse.mpr hx
  cases hr : l.reverse with
  | nil => rw [hr] at hb; simp at hb
  | cons y t =>
    rw [hr] at hb hx' hs'
    rw [List.head?_cons, Option.some.injEq] at hb
    subst hb
    rcases List.mem_cons.mp hx' with rfl | hxt
    · exact le_rfl
    · exact le_of_lt ((List.pairwise_cons.mp hs').1 x hxt)

/-- Bounds of a first/last detection over qualifying indices: the top comes
before the bottom and both are valid indices. -/
theorem firstLast_whereIdx_bounds {n : ℕ} {p : ℕ → Bool} {a b : ℕ}
    (h : firstLast (whereIdx n p) = some (a, b)) :
    a ≤ b ∧ b < n ∧ p a = true ∧ p b = true := by
  obtain ⟨hh, hg⟩ := firstLast_eq_some h
  have hma := head?_mem_self hh
  have hmb := getLast?_mem_self hg
  have hpa := (mem_whereIdx.mp hma)
  have hpb := (mem_whereIdx.mp hmb)
  exact ⟨head?_le_of_pairwise (whereIdx_pairwise n p) hh hmb,
    hpb.1, hpa.2, hpb.2⟩

/-! ## auto_crop_card.py: find_dark_rectangle -/

/-- Brightness mask of find_dark_rectangle (auto_crop_card.py lines 39-46):
a working sample is dark when it is below `mean - 0.8*std`
(`k2 = 0.8^2 = 16/25`). -/
def autoDarkMask (work : Img) : ℕ → ℕ → Bool :=
  fun i j => ltMeanMinusStd (work.px i j) (npMean work) (npVar work) (16/25)

/-- Qualifying rows (auto_crop_card.py lines 48-58): dark count strictly
above 15 percent of the working width. -/
def autoQualRows (work : Img) : List ℕ :=
  whereIdx work.h (fun i =>
    decide ((15:ℚ)/100 * (work.w:ℚ) < (rowCount (autoDarkMask work) work.w i : ℚ)))

/-- Qualifying columns: dark count strictly above 15 percent of the working
height. -/
def autoQualCols (work : Img) : List ℕ :=
  whereIdx work.w (fun j =>
    decide ((15:ℚ)/100 * (work.h:ℚ) < (colCount (autoDarkMask work) work.h j : ℚ)))

/-- Boundary estimate (auto_crop_card.py lines 56-75): first and last
qualifying row and column; `none` when either set is empty. -/
def autoEstimate (work : Img) : Option ((ℤ × ℤ) × (ℤ × ℤ)) :=
  match firstLast (autoQualRows work), firstLast (autoQualCols work) with
  | some (t, b), some (l, r) => some (((t:ℤ), (b:ℤ)), ((l:ℤ), (r:ℤ)))
  | _, _ => none

/-- Fallback of find_dark_rectangle (auto_crop_card.py lines 61-69): fixed
15 percent center crop computed on the original dimensions. -/
def autoFallback (W H : ℕ) : Box :=
  ⟨pyInt ((W:ℚ) * (15/100)), pyInt ((H:ℚ) * (15/100)),
   pyInt ((W:ℚ) * (1 - 15/100)), pyInt ((H:ℚ) * (1 - 15/100))⟩

/-- Margin step (auto_crop_card.py lines 77-89): expand by
`int(extent * margin_percent / 100)` on each side, clamped to the working
canvas. -/
def autoMargin (work : Img) (mp : ℕ) :
    (ℤ × ℤ) × (ℤ × ℤ) → (ℤ × ℤ) × (ℤ × ℤ) :=
  fun ((t, b), (l, r)) =>
    let mh := pyInt (((b - t : ℤ) : ℚ) * (mp:ℚ) / 100)
    let mw := pyInt (((r - l : ℤ) : ℚ) * (mp:ℚ) / 100)
    ((max 0 (t - mh), min (work.h:ℤ) (b + mh)),
     (max 0 (l - mw), min (work.w:ℤ) (r + mw)))

/-- Rescale step (auto_crop_card.py lines 91-95): divide each coordinate by
the resize ratio, truncating toward zero. -/
def autoRescale (ratio : ℚ) : (ℤ × ℤ) × (ℤ × ℤ) → (ℤ × ℤ) × (ℤ × ℤ) :=
  fun ((t, b), (l, r)) =>
    ((pyInt ((t:ℚ) / ratio), pyInt ((b:ℚ) / ratio)),
     (pyInt ((l:ℚ) / ratio), pyInt ((r:ℚ) / ratio)))

/-- Aspect-ratio check and recentring (auto_crop_card.py lines 97-117),
applied in ORIGINAL coordinates: when height/width leaves `[1.1, 1.8]`,
keep the truncated center and the detected width, set the height to
`int(width*1.4)`, then clamp to the original canvas. -/
def autoAspect (W H : ℕ) : (ℤ × ℤ) × (ℤ × ℤ) → Box :=
  fun ((t, b), (l, r)) =>
    let ar : ℚ := if 0 < r - l then ((b - t : ℤ) : ℚ) / ((r - l : ℤ) : ℚ) else 0
    if ar < 11/10 ∨ 9/5 < ar then
      let cx := Int.fdiv (l + r) 2
      let cy := Int.fdiv (t + b) 2
      let cw := r - l
      let ch := pyInt ((cw:ℚ) * (7/5))
      let l2 := pyInt ((cx:ℚ) - (cw:ℚ) / 2)
      let r2 := pyInt ((cx:ℚ) + (cw:ℚ) / 2)
      let t2 := pyInt ((cy:ℚ) - (ch:ℚ) / 2)
      let b2 := pyInt ((cy:ℚ) + (ch:ℚ) / 2)
      ⟨max 0 l2, max 0 t2, min (W:ℤ) r2, min (H:ℤ) b2⟩
    else
      ⟨l, t, r, b⟩

/-- find_dark_rectangle (auto_crop_card.py): the full brightness pipeline.
`W`, `H` are the original dimensions, `work` the working grayscale image
(the LANCZOS downsample when `max W H > 800`, else the image itself) and
`ratio` the resize factor the source tracks. -/
def findDarkRectangle (W H : ℕ) (work : Img) (ratio : ℚ) (mp : ℕ) : Box :=
  match autoEstimate work with
  | none => autoFallback W H
  | some e => autoAspect W H (autoRescale ratio (autoMargin work mp e))

/-! ## PIL preprocessing collaborators -/

/-- Clamp an integer sample into the uint8 range. -/
def clamp255 (z : ℤ) : ℕ := (min 255 (max 0 z)).toNat

/-- ImageEnhance.Contrast(gray).enhance(2.0): blend away from the rounded
mean with factor 2 and clamp; exact for integer inputs since the factor is
the integer 2. -/
def contrast2 (g : Img) : Img :=
  ⟨g.w, g.h, fun i j =>
    clamp255 (⌊npMean g + 1/2⌋ + 2 * ((g.px i j : ℤ) - ⌊npMean g + 1/2⌋))⟩

/-- ImageFilter.FIND_EDGES: the 3x3 kernel `8*center - (8 neighbours)`
clamped to `0..255`; PIL's convolution copies the one-pixel border
unchanged from the input. -/
def findEdges (g : Img) : Img :=
  ⟨g.w, g.h, fun i j =>
    if i = 0 ∨ j = 0 ∨ g.h ≤ i + 1 ∨ g.w ≤ j + 1 then g.px i j
    else clamp255 (8 * (g.px i j : ℤ) -
      ((g.px (i-1) (j-1) : ℤ) + (g.px (i-1) j : ℤ) + (g.px (i-1) (j+1) : ℤ) +
       (g.px i (j-1) : ℤ) + (g.px i (j+1) : ℤ) +
       (g.px (i+1) (j-1) : ℤ) + (g.px (i+1) j : ℤ) + (g.px (i+1) (j+1) : ℤ)))⟩

/-- Replicate-padding sample: out-of-canvas indices are clamped in. -/
def pxClamped (g : Img) (i j : ℤ) : ℕ :=
  g.px (min ((g.h:ℤ) - 1) (max 0 i)).toNat (min ((g.w:ℤ) - 1) (max 0 j)).toNat

/-- ImageFilter.MaxFilter(2*r+1): windowed maximum with replicate padding
(PIL rank filters expand the image by edge replication first). -/
def maxFilter (r : ℕ) (g : Img) : Img :=
  ⟨g.w, g.h, fun i j =>
    ((List.range (2*r+1)).map (fun (di : ℕ) =>
      ((List.range (2*r+1)).map (fun (dj : ℕ) =>
        pxClamped g ((i:ℤ) + (di:ℤ) - (r:ℤ)) ((j:ℤ) + (dj:ℤ) - (r:ℤ)))).foldr max 0)).foldr max 0⟩

/-! ## smart_crop_v2.py: find_card_by_edges -/

/-- The edge-magnitude working grid of smart_crop_v2 (lines 36-47):
contrast enhancement by 2, FIND_EDGES, then MaxFilter(3). -/
def v2EdgeGrid (gray : Img) : Img := maxFilter 1 (findEdges (contrast2 gray))

/-- smart_crop_v2 threshold (line 51): the 85th percentile over the
strictly positive magnitudes only; numpy raises when there are none. -/
def v2Threshold (edge : Img) : Option ℚ :=
  npPercentile ((pixelList edge).filter (fun v => decide (0 < v))) 85

/-- Strong-edge mask (smart_crop_v2 line 52): magnitude strictly above the
threshold. -/
def v2StrongMask (edge : Img) (thr : ℚ) : ℕ → ℕ → Bool :=
  fun i j => decide (thr < (edge.px i j : ℚ))

/-- Qualifying rows (smart_crop_v2 lines 57-69): strong-edge count strictly
above 8 percent of the working width. -/
def v2QualRows (edge : Img) (thr : ℚ) : List ℕ :=
  whereIdx edge.h (fun i =>
    decide ((8:ℚ)/100 * (edge.w:ℚ) < (rowCount (v2StrongMask edge thr) edge.w i : ℚ)))

/-- Qualifying columns: strong-edge count strictly above 8 percent of the
working height. -/
def v2QualCols (edge : Img) (thr : ℚ) : List ℕ :=
  whereIdx edge.w (fun j =>
    decide ((8:ℚ)/100 * (edge.h:ℚ) < (colCount (v2StrongMask edge thr) edge.h j : ℚ)))

/-- Boundary estimate of find_card_by_edges (lines 49-86): `none` when the
threshold cannot be computed or either qualifying set is empty. -/
def v2Estimate (edge : Img) : Option ((ℤ × ℤ) × (ℤ × ℤ)) :=
  match v2Threshold edge with
  | none => none
  | some thr =>
    match firstLast (v2QualRows edge thr), firstLast (v2QualCols edge thr) with
    | some (t, b), some (l, r) => some (((t:ℤ), (b:ℤ)), ((l:ℤ), (r:ℤ)))
    | _, _ => none

/-- Aspect-ratio correction of find_card_by_edges (lines 88-105), in
WORKING coordinates, without clamping. -/
def v2Aspect : (ℤ × ℤ) × (ℤ × ℤ) → (ℤ × ℤ) × (ℤ × ℤ) :=
  fun ((t, b), (l, r)) =>
    let ar : ℚ := if 0 < r - l then ((b - t : ℤ) : ℚ) / ((r - l : ℤ) : ℚ) else 0
    if ar < 11/10 ∨ 9/5 < ar then
      let cx := Int.fdiv (l + r) 2
      let cy := Int.fdiv (t + b) 2
      let cw := r - l
      let ch := pyInt ((cw:ℚ) * (7/5))
      ((pyInt ((cy:ℚ) - (ch:ℚ) / 2), pyInt ((cy:ℚ) + (ch:ℚ) / 2)),
       (pyInt ((cx:ℚ) - (cw:ℚ) / 2), pyInt ((cx:ℚ) + (cw:ℚ) / 2)))
    else ((t, b), (l, r))

/-- Margin step of find_card_by_edges (lines 107-113). -/
def v2Margin (edge : Img) (mp : ℕ) :
    (ℤ × ℤ) × (ℤ × ℤ) → (ℤ × ℤ) × (ℤ × ℤ) :=
  fun ((t, b), (l, r)) =>
    let mh := pyInt (((b - t : ℤ) : ℚ) * (mp:ℚ) / 100)
    let mw := pyInt (((r - l : ℤ) : ℚ) * (mp:ℚ) / 100)
    ((max 0 (t - mh), min (edge.h:ℤ) (b + mh)),
     (max 0 (l - mw), min (edge.w:ℤ) (r + mw)))

/-- Rescale and final clamp of find_card_by_edges (lines 115-126). -/
def v2RescaleClamp (W H : ℕ) (ratio : ℚ) : (ℤ × ℤ) × (ℤ × ℤ) → Box :=
  fun ((t, b), (l, r)) =>
    ⟨max 0 (pyInt ((l:ℚ) / ratio)), max 0 (pyInt ((t:ℚ) / ratio)),
     min (W:ℤ) (pyInt ((r:ℚ) / ratio)), min (H:ℤ) (pyInt ((b:ℚ) / ratio))⟩

/-- fallback_center_crop (smart_crop_v2.py lines 129-136): fixed 18 percent
center crop on the original dimensions. -/
def fallbackCenterCrop (W H : ℕ) : Box :=
  ⟨pyInt ((W:ℚ) * (18/100)), pyInt ((H:ℚ) * (18/100)),
   pyInt ((W:ℚ) * (1 - 18/100)), pyInt ((H:ℚ) * (1 - 18/100))⟩

/-- find_card_by_edges (smart_crop_v2.py), from the edge-magnitude grid.
`none` models the numpy exception raised by the percentile of an empty
positive set (an all-zero edge grid). -/
def findCardByEdges (W H : ℕ) (edge : Img) (ratio : ℚ) (mp : ℕ) : Option Box :=
  match v2Threshold edge with
  | none => none
  | some thr =>
    match firstLast (v2QualRows edge thr), firstLast (v2QualCols edge thr) with
    | some (t, b), some (l, r) =>
        some (v2RescaleClamp W H ratio (v2Margin edge mp
          (v2Aspect (((t:ℤ), (b:ℤ)), ((l:ℤ), (r:ℤ))))))
    | _, _ => some (fallbackCenterCrop W H)

/-- find_card_by_edges applied to a working grayscale image: the full
preprocessing chain followed by the detection. -/
def findCardByEdgesImg (W H : ℕ) (work : Img) (ratio : ℚ) (mp : ℕ) : Option Box :=
  findCardByEdges W H (v2EdgeGrid work) ratio mp

/-! ## crop_card.py: find_card_boundaries and the caller fallback -/

/-- Brightness mask of find_card_boundaries (crop_card.py lines 31-37):
sample below `mean - 0.5*std` (`k2 = 1/4`). -/
def ccDarkMask (img : Img) : ℕ → ℕ → Bool :=
  fun i j => ltMeanMinusStd (img.px i j) (npMean img) (npVar img) (1/4)

/-- Rows containing at least one dark pixel (np.any, crop_card.py
lines 39-44). -/
def ccAnyRows (img : Img) : List ℕ :=
  whereIdx img.h (fun i => (List.range img.w).any (fun j => ccDarkMask img i j))

/-- Columns containing at least one dark pixel. -/
def ccAnyCols (img : Img) : List ℕ :=
  whereIdx img.w (fun j => (List.range img.h).any (fun i => ccDarkMask img i j))

/-- find_card_boundaries (crop_card.py): `none` when no dark content is
found; this script runs at full resolution (no resize, no aspect pass). -/
def findCardBoundaries (img : Img) (padding : ℕ) : Option Box :=
  match firstLast (ccAnyRows img), firstLast (ccAnyCols img) with
  | some (t, b), some (l, r) =>
      some ⟨max 0 ((l:ℤ) - (padding:ℤ)), max 0 ((t:ℤ) - (padding:ℤ)),
            min (img.w:ℤ) ((r:ℤ) + (padding:ℤ)), min (img.h:ℤ) ((b:ℤ) + (padding:ℤ))⟩
  | _, _ => none

/-- crop_card (crop_card.py lines 77-85): the caller-level box, using the
fallback crop with 15 percent horizontal and 5 percent vertical margins
when detection finds nothing. -/
def cropCardBox (img : Img) (padding : ℕ) : Box :=
  match findCardBoundaries img padding with
  | some b => b
  | none =>
      ⟨pyInt ((img.w:ℚ) * (15/100)), pyInt ((img.h:ℚ) * (5/100)),
       pyInt ((img.w:ℚ) * (85/100)), pyInt ((img.h:ℚ) * (95/100))⟩

/-! ## smart_crop_card.py: find_card_contour -/

/-- The edge working grid of smart_crop_card (lines 38-42): FIND_EDGES then
MaxFilter(5) on the working grayscale (no contrast step). -/
def scEdgeGrid (gray : Img) : Img := maxFilter 2 (findEdges gray)

/-- smart_crop_card threshold (line 46): the 90th percentile over ALL
magnitudes, zeros included. -/
def scThreshold (edge : Img) : Option ℚ := npPercentile (pixelList edge) 90

/-- Strong-edge mask (smart_crop_card line 47). -/
def scStrongMask (edge : Img) (thr : ℚ) : ℕ → ℕ → Bool :=
  fun i j => decide (thr < (edge.px i j : ℚ))

/-- Rows containing at least one strong-edge pixel (np.any, lines 49-54). -/
def scAnyRows (edge : Img) (thr : ℚ) : List ℕ :=
  whereIdx edge.h (fun i => (List.range edge.w).any (fun j => scStrongMask edge thr i j))

/-- Columns containing at least one strong-edge pixel. -/
def scAnyCols (edge : Img) (thr : ℚ) : List ℕ :=
  whereIdx edge.w (fun j => (List.range edge.h).any (fun i => scStrongMask edge thr i j))

/-- Fallback of find_card_contour (lines 56-64): margins computed on the
WORKING dimensions, 20 percent horizontal and 15 percent vertical. -/
def scFallback (ww wh : ℕ) : Box :=
  ⟨pyInt ((ww:ℚ) * (20/100)), pyInt ((wh:ℚ) * (15/100)),
   (ww:ℤ) - pyInt ((ww:ℚ) * (20/100)), (wh:ℤ) - pyInt ((wh:ℚ) * (15/100))⟩

/-- find_card_contour (smart_crop_card.py): the box in WORKING coordinates
(the caller rescales); 2 percent padding precedes the aspect pass, whose
width reference is `min(detected, 0.6 * working width)` and whose band is
`[1.2, 2.0]`.  `none` only for an empty image (percentile of nothing). -/
def findCardContour (edge : Img) : Option Box :=
  match scThreshold edge with
  | none => none
  | some thr =>
    match firstLast (scAnyRows edge thr), firstLast (scAnyCols edge thr) with
    | some (tn, bn), some (ln, rn) =>
        let t : ℤ := tn
        let b : ℤ := bn
        let l : ℤ := ln
        let r : ℤ := rn
        let ph := pyInt (((b - t : ℤ):ℚ) * (2/100))
        let pw := pyInt (((r - l : ℤ):ℚ) * (2/100))
        let t1 := max 0 (t - ph)
        let b1 := min (edge.h:ℤ) (b + ph)
        let l1 := max 0 (l - pw)
        let r1 := min (edge.w:ℤ) (r + pw)
        let ar : ℚ := if 0 < r1 - l1 then ((b1 - t1 : ℤ):ℚ) / ((r1 - l1 : ℤ):ℚ) else 0
        if ar < 12/10 ∨ 2 < ar then
          let cx := Int.fdiv (l1 + r1) 2
          let cy := Int.fdiv (t1 + b1) 2
          let cw : ℚ := min ((r1 - l1 : ℤ):ℚ) ((edge.w:ℚ) * (6/10))
          let ch : ℚ := cw * (7/5)
          some ⟨max 0 (pyInt ((cx:ℚ) - cw / 2)), max 0 (pyInt ((cy:ℚ) - ch / 2)),
                min (edge.w:ℤ) (pyInt ((cx:ℚ) + cw / 2)),
                min (edge.h:ℤ) (pyInt ((cy:ℚ) + ch / 2))⟩
        else some ⟨l1, t1, r1, b1⟩
    | _, _ => some (scFallback edge.w edge.h)

/-- crop_card_smart (smart_crop_card.py lines 125-137): divide the working
coordinates by the scale factor, truncating; no further clamping. -/
def smartCropBox (edge : Img) (ratio : ℚ) : Option Box :=
  match findCardContour edge with
  | some b => some ⟨pyInt ((b.left:ℚ) / ratio), pyInt ((b.top:ℚ) / ratio),
                    pyInt ((b.right:ℚ) / ratio), pyInt ((b.bottom:ℚ) / ratio)⟩
  | none => none

/-! ## The pipeline in the order the specification asserts -/

/-- The aspect corrector as section 4.4 of the specification words it for
the brightness strategy: acting on the estimated box BEFORE margins, in
working coordinates, clamped to the working canvas. -/
def specCorrectWork (ww wh : ℕ) : (ℤ × ℤ) × (ℤ × ℤ) → (ℤ × ℤ) × (ℤ × ℤ) :=
  fun ((t, b), (l, r)) =>
    let ar : ℚ := if 0 < r - l then ((b - t : ℤ) : ℚ) / ((r - l : ℤ) : ℚ) else 0
    if ar < 11/10 ∨ 9/5 < ar then
      let cx := Int.fdiv (l + r) 2
      let cy := Int.fdiv (t + b) 2
      let cw := r - l
      let ch := pyInt ((cw:ℚ) * (7/5))
      ((max 0 (pyInt ((cy:ℚ) - (ch:ℚ) / 2)), min (wh:ℤ) (pyInt ((cy:ℚ) + (ch:ℚ) / 2))),
       (max 0 (pyInt ((cx:ℚ) - (cw:ℚ) / 2)), min (ww:ℤ) (pyInt ((cx:ℚ) + (cw:ℚ) / 2))))
    else ((t, b), (l, r))

/-- The brightness pipeline reassembled in the order the specification
claims (Estimator, then Corrector, then Margin, then rescale). -/
def specOrderAuto (W H : ℕ) (work : Img) (ratio : ℚ) (mp : ℕ) : Box :=
  match autoEstimate work with
  | none => autoFallback W H
  | some e =>
    match autoRescale ratio (autoMargin work mp (specCorrectWork work.w work.h e)) with
    | ((t, b), (l, r)) => ⟨l, t, r, b⟩

/-! ## Concrete test images -/

/-- A 7-wide, 40-tall image whose top 11 rows are black on white. -/
def imgTall : Img := ⟨7, 40, fun i _ => if i ≤ 10 then 0 else 255⟩

/-- A 5-wide, 10-tall image with a black 2x4 block in its top-left
corner. -/
def imgWide : Img := ⟨5, 10, fun i j => if i ≤ 1 ∧ j ≤ 3 then 0 else 255⟩

/-- A single black pixel at row 5, column 5 on a 20x20 white ground. -/
def imgDot : Img := ⟨20, 20, fun i j => if i = 5 ∧ j = 5 then 0 else 255⟩

/-- A 1x1 black image. -/
def imgOne : Img := Img.uniform 1 1 0

/-- A 5x5 all-black (zero intensity) image. -/
def imgBlack : Img := Img.uniform 5 5 0

/-- A flat white 20x20 image. -/
def imgFlat : Img := Img.uniform 20 20 255

/-- A 20-wide, 1-tall edge-magnitude grid: one magnitude 10 among
zeros. -/
def gridSparse : Img := ⟨20, 1, fun _ j => if j = 0 then 10 else 0⟩

/-! ## Arithmetic helpers -/

theorem pyInt_gap {a b : ℚ} (ha : 0 ≤ a) (h : a + 1 ≤ b) : pyInt a < pyInt b := by
  rw [pyInt_of_nonneg ha, pyInt_of_nonneg (by linarith)]
  have h1 : ⌊a⌋ + 1 = ⌊a + 1⌋ := by
    rw [show a + 1 = a + (1:ℤ) by push_cast; ring, Int.floor_add_int]
  have h2 : ⌊a + 1⌋ ≤ ⌊b⌋ := Int.floor_mono h
  omega

theorem fdiv2_nonneg {a : ℤ} (h : 0 ≤ a) : 0 ≤ Int.fdiv a 2 := by
  rw [Int.fdiv_eq_ediv _ (by norm_num)]
  exact Int.ediv_nonneg h (by norm_num)

theorem le_fdiv2 {a b : ℤ} (h : b + b ≤ a) : b ≤ Int.fdiv a 2 := by
  rw [Int.fdiv_eq_ediv _ (by norm_num)]
  rw [Int.le_ediv_iff_mul_le (by norm_num)]
  omega

theorem fdiv2_le {a b : ℤ} (h : a ≤ b + b) : Int.fdiv a 2 ≤ b := by
  rw [Int.fdiv_eq_ediv _ (by norm_num)]
  have h1 : a / 2 ≤ (b + b) / 2 := Int.ediv_le_ediv (by norm_num) h
  have h2 : (b + b) / 2 = b := by omega
  omega

theorem foldr_max_le {l : List ℕ} {c : ℕ} (h : ∀ x ∈ l, x ≤ c) :
    l.foldr max 0 ≤ c := by
  induction l with
  | nil => exact Nat.zero_le c
  | cons x t ih =>
    simp only [List.foldr_cons]
    exact max_le (h x (List.mem_cons_self x t))
      (ih (fun y hy => h y (List.mem_cons_of_mem x hy)))

theorem le_foldr_max {l : List ℕ} {x : ℕ} (hx : x ∈ l) : x ≤ l.foldr max 0 := by
  induction l with
  | nil => simp at hx
  | cons y t ih =>
    simp only [List.foldr_cons]
    rcases List.mem_cons.mp hx with rfl | hxt
    · exact le_max_left _ _
    · exact le_trans (ih hxt) (le_max_right _ _)

theorem foldr_max_mem_or_zero {l : List ℕ} {c : ℕ}
    (h : ∀ x ∈ l, x = 0 ∨ x = c) : l.foldr max 0 = 0 ∨ l.foldr max 0 = c := by
  induction l with
  | nil => exact Or.inl rfl
  | cons x t ih =>
    simp only [List.foldr_cons]
    rcases h x (List.mem_cons_self x t) with hx | hx <;>
      rcases ih (fun y hy => h y (List.mem_cons_of_mem x hy)) with ht | ht <;>
      rw [hx, ht]
    · exact Or.inl (by omega)
    · exact Or.inr (by omega)
    · exact Or.inr (by omega)
    · exact Or.inr (by omega)

/-! ## Counterexample evaluations -/

/-- Claim C1, counterexample: a 1x1 black image has positive width and
height, the brightness mask is empty (no sample is strictly below the
mean), and the fallback box is `(0, 0, 0, 0)`: the strict inequalities
`left < right` and `top < bottom` of the claim fail. -/
theorem c1_counterexample :
    findDarkRectangle 1 1 imgOne 1 3 = ⟨0, 0, 0, 0⟩ ∧
    ¬((findDarkRectangle 1 1 imgOne 1 3).left <
      (findDarkRectangle 1 1 imgOne 1 3).right) := of_decide_eq_true (by with_unfolding_all rfl)

/-- Claim C2, counterexample: on an entirely uniform black (intensity 0)
image, the edge strategy of smart_crop_v2 computes an all-zero edge grid,
so the percentile over the strictly positive magnitudes has an empty
input, on which numpy raises: no fallback box is returned. -/
theorem c2_counterexample :
    findCardByEdgesImg 5 5 imgBlack 1 3 = none ∧
    (none : Option Box) ≠ some (fallbackCenterCrop 5 5) := of_decide_eq_true (by with_unfolding_all rfl)

/-- Claim C3, counterexample: on a 7x40 image whose detected box is
`(top 0, bottom 10, left 0, right 6)` with margin percent 30, the
brightness strategy returns `(0, 1, 6, 10)` because it applies the
aspect corrector AFTER the margin and the rescale; the pipeline assembled
in the claimed order (corrector before margin) returns `(0, 0, 7, 13)`. -/
theorem c3_counterexample :
    findDarkRectangle 7 40 imgTall 1 30 = ⟨0, 1, 6, 10⟩ ∧
    specOrderAuto 7 40 imgTall 1 30 = ⟨0, 0, 7, 13⟩ ∧
    findDarkRectangle 7 40 imgTall 1 30 ≠ specOrderAuto 7 40 imgTall 1 30 := of_decide_eq_true (by with_unfolding_all rfl)

/-- Claim C4, counterexample: the detected box `(top 0, bottom 1, left 0,
right 3)` of the 5x10 block image has ratio 1/3, outside the band; the
recentring (the shared pre-clamp computation of the correctors) yields
`((-2, 2), (0, 2))`: the new width is 2, not the detected width 3,
because `int(center - width/2) = int(-0.5)` truncates toward zero.  The
full brightness pipeline indeed returns a box of width 2. -/
theorem c4_counterexample :
    autoEstimate imgWide = some ((0, 1), (0, 3)) ∧
    ((1:ℚ) - 0) / ((3:ℚ) - 0) < 11/10 ∧
    v2Aspect ((0, 1), (0, 3)) = ((-2, 2), (0, 2)) ∧
    ((2:ℤ) - 0 ≠ 3 - 0) ∧
    findDarkRectangle 5 10 imgWide 1 0 = ⟨0, 0, 2, 2⟩ := of_decide_eq_true (by with_unfolding_all rfl)

/-- Claim C5, counterexample: on a 20x1 edge grid with one positive
magnitude 10 among zeros, smart_crop_card computes threshold 0 (the 90th
percentile over ALL magnitudes) whereas the 85th and 90th percentiles
over the strictly positive magnitudes are both 10; the resulting masks
differ (one strong pixel versus none). -/
theorem c5_counterexample :
    scThreshold gridSparse = some 0 ∧
    npPercentile ((pixelList gridSparse).filter (fun v => decide (0 < v))) 85 = some 10 ∧
    npPercentile ((pixelList gridSparse).filter (fun v => decide (0 < v))) 90 = some 10 ∧
    rowCount (scStrongMask gridSparse 0) gridSparse.w 0 = 1 ∧
    rowCount (scStrongMask gridSparse 10) gridSparse.w 0 = 0 := of_decide_eq_true (by with_unfolding_all rfl)

/-- Claim C6, counterexample: in crop_card a row qualifies by presence of
ANY dark pixel: on a 20x20 image with a single dark pixel, row 5 has dark
count 1, below the claimed floor band (8 percent of 20 is 1.6), yet it
qualifies and the detection succeeds instead of falling back. -/
theorem c6_counterexample :
    findCardBoundaries imgDot 20 = some ⟨0, 0, 20, 20⟩ ∧
    5 ∈ ccAnyRows imgDot ∧
    rowCount (ccDarkMask imgDot) imgDot.w 5 = 1 ∧
    ¬((8:ℚ)/100 * (imgDot.w:ℚ) < (rowCount (ccDarkMask imgDot) imgDot.w 5 : ℚ)) := of_decide_eq_true (by with_unfolding_all rfl)

/-- Claim C7, counterexample: on a flat 20x20 image crop_card detects
nothing and its caller fallback returns `(3, 1, 17, 19)`: the vertical
margin is 5 percent of the height, not a fraction between 15 and 20
percent. -/
theorem c7_counterexample :
    cropCardBox imgFlat 20 = ⟨3, 1, 17, 19⟩ ∧
    ((cropCardBox imgFlat 20).top : ℚ) / (imgFlat.h : ℚ) = 5/100 ∧
    ¬((15:ℚ)/100 ≤ 5/100) := of_decide_eq_true (by with_unfolding_all rfl)

/-- Claim C8, counterexample: on a 1x1 image (positive width and height)
fallback_center_crop returns the degenerate box `(0, 0, 0, 0)`. -/
theorem c8_counterexample :
    fallbackCenterCrop 1 1 = ⟨0, 0, 0, 0⟩ ∧
    ¬(0 < (fallbackCenterCrop 1 1).right - (fallbackCenterCrop 1 1).left) := of_decide_eq_true (by with_unfolding_all rfl)

/-- Claim C9, counterexample: on the 7x40 image, raising the margin
percent from 0 to 30 SHRINKS the returned height from 10 to 9: the
enlarged margin pushes the ratio out of band and the late aspect
corrector rebuilds the height from the width.  No height coordinate is
clamped at the image bounds (top 1 > 0 and bottom 10 < 40). -/
theorem c9_counterexample :
    findDarkRectangle 7 40 imgTall 1 0 = ⟨0, 0, 6, 10⟩ ∧
    findDarkRectangle 7 40 imgTall 1 30 = ⟨0, 1, 6, 10⟩ ∧
    (findDarkRectangle 7 40 imgTall 1 30).bottom -
      (findDarkRectangle 7 40 imgTall 1 30).top <
    (findDarkRectangle 7 40 imgTall 1 0).bottom -
      (findDarkRectangle 7 40 imgTall 1 0).top ∧
    (0:ℤ) < 1 ∧ (10:ℤ) < 40 := of_decide_eq_true (by with_unfolding_all rfl)

/-! ## Amended claims: fallback non-degeneracy (C8) -/

theorem fallback_gap {x m : ℚ} (hx : 2 ≤ x) (hm1 : 0 ≤ m) (hm2 : m ≤ 18/100) :
    pyInt (x * m) < pyInt (x * (1 - m)) := by
  apply pyInt_gap (mul_nonneg (by linarith) hm1)
  nlinarith

/-- Claim C8 (amended): for every image with width and height at least 2,
both cited fallback selectors (brightness strategy and
fallback_center_crop) return a non-degenerate box; at width or height 1
both margins truncate to the same coordinate, as the counterexample
shows. -/
theorem c8_amended (W H : ℕ) (hW : 2 ≤ W) (hH : 2 ≤ H) :
    (0 < (autoFallback W H).right - (autoFallback W H).left ∧
     0 < (autoFallback W H).bottom - (autoFallback W H).top) ∧
    (0 < (fallbackCenterCrop W H).right - (fallbackCenterCrop W H).left ∧
     0 < (fallbackCenterCrop W H).bottom - (fallbackCenterCrop W H).top) := by
  have hW' : (2:ℚ) ≤ (W:ℚ) := by exact_mod_cast hW
  have hH' : (2:ℚ) ≤ (H:ℚ) := by exact_mod_cast hH
  have g1 := fallback_gap (m := 15/100) hW' (by norm_num) (by norm_num)
  have g2 := fallback_gap (m := 15/100) hH' (by norm_num) (by norm_num)
  have g3 := fallback_gap (m := 18/100) hW' (by norm_num) (by norm_num)
  have g4 := fallback_gap (m := 18/100) hH' (by norm_num) (by norm_num)
  unfold autoFallback fallbackCenterCrop
  refine ⟨⟨?_, ?_⟩, ?_, ?_⟩ <;> simp only [] <;> omega

theorem c8_amended_witness :
    (2 ≤ 2 ∧ 2 ≤ 3) ∧
    ((0 < (autoFallback 2 3).right - (autoFallback 2 3).left ∧
      0 < (autoFallback 2 3).bottom - (autoFallback 2 3).top) ∧
     (0 < (fallbackCenterCrop 2 3).right - (fallbackCenterCrop 2 3).left ∧
      0 < (fallbackCenterCrop 2 3).bottom - (fallbackCenterCrop 2 3).top)) :=
  ⟨⟨le_refl 2, by omega⟩, c8_amended 2 3 (le_refl 2) (by omega)⟩

/-! ## Amended claims: the edge-mask threshold (C5) -/

/-- The edge threshold exactly as the specification words it: a
percentile computed only over the strictly positive magnitudes. -/
def specPosThreshold (q : ℚ) (edge : Img) : Option ℚ :=
  npPercentile ((pixelList edge).filter (fun v => decide (0 < v))) q

/-- Claim C5 (amended): smart_crop_v2 does compute its threshold as the
85th percentile over the strictly positive magnitudes, but
smart_crop_card computes its 90th percentile over ALL magnitudes, which
agrees with the specified positives-only rule only when no magnitude is
zero; in both scripts a pixel is masked exactly when its magnitude
strictly exceeds the threshold. -/
theorem c5_amended :
    (∀ edge : Img, v2Threshold edge = specPosThreshold 85 edge) ∧
    (∀ edge : Img, (∀ v ∈ pixelList edge, 0 < v) →
      scThreshold edge = specPosThreshold 90 edge) ∧
    (∀ (edge : Img) (thr : ℚ) (i j : ℕ),
      v2StrongMask edge thr i j = true ↔ thr < (edge.px i j : ℚ)) ∧
    (∀ (edge : Img) (thr : ℚ) (i j : ℕ),
      scStrongMask edge thr i j = true ↔ thr < (edge.px i j : ℚ)) := by
  refine ⟨fun edge => rfl, fun edge hpos => ?_,
    fun edge thr i j => by simp [v2StrongMask],
    fun edge thr i j => by simp [scStrongMask]⟩
  unfold scThreshold specPosThreshold
  congr 1
  exact (List.filter_eq_self.mpr (fun v hv => decide_eq_true (hpos v hv))).symm

theorem c5_amended_witness :
    v2Threshold (Img.uniform 1 1 3) = specPosThreshold 85 (Img.uniform 1 1 3) ∧
    (∀ v ∈ pixelList (Img.uniform 1 1 3), 0 < v) ∧
    scThreshold (Img.uniform 1 1 3) = specPosThreshold 90 (Img.uniform 1 1 3) ∧
    (v2StrongMask (Img.uniform 1 1 3) 2 0 0 = true ↔
      (2:ℚ) < ((Img.uniform 1 1 3).px 0 0 : ℚ)) ∧
    (scStrongMask (Img.uniform 1 1 3) 2 0 0 = true ↔
      (2:ℚ) < ((Img.uniform 1 1 3).px 0 0 : ℚ)) := by
  have hpos : ∀ v ∈ pixelList (Img.uniform 1 1 3), 0 < v := by decide
  exact ⟨c5_amended.1 _, hpos, c5_amended.2.1 _ hpos,
    c5_amended.2.2.1 _ _ _ _, c5_amended.2.2.2 _ _ _ _⟩

/-! ## Amended claims: qualification rules (C6) -/

theorem autoEstimate_inv {work : Img} {t b l r : ℤ}
    (h : autoEstimate work = some ((t, b), (l, r))) :
    ∃ tn bn ln rn : ℕ, firstLast (autoQualRows work) = some (tn, bn) ∧
      firstLast (autoQualCols work) = some (ln, rn) ∧
      t = tn ∧ b = bn ∧ l = ln ∧ r = rn := by
  unfold autoEstimate at h
  rcases hr : firstLast (autoQualRows work) with _ | ⟨tn, bn⟩ <;>
    rcases hc : firstLast (autoQualCols work) with _ | ⟨ln, rn⟩ <;>
      rw [hr, hc] at h
  · exact absurd h (by simp)
  · exact absurd h (by simp)
  · exact absurd h (by simp)
  · simp only [Option.some.injEq, Prod.mk.injEq] at h
    exact ⟨tn, bn, ln, rn, rfl, rfl, h.1.1.symm, h.1.2.symm, h.2.1.symm, h.2.2.symm⟩

/-- Claim C6 (amended): the count-above-a-fraction-floor qualification
holds only for the brightness strategy (15 percent) and smart_crop_v2
(8 percent); crop_card and smart_crop_card qualify a row or column as
soon as it contains a single mask-true pixel.  In every strategy the
estimate takes the first and last qualifying indices (shown here for the
brightness strategy: every qualifying row lies between the chosen top
and bottom). -/
theorem c6_amended :
    (∀ (work : Img) (i : ℕ), i ∈ autoQualRows work ↔
      i < work.h ∧
        (15:ℚ)/100 * (work.w:ℚ) < (rowCount (autoDarkMask work) work.w i : ℚ)) ∧
    (∀ (edge : Img) (thr : ℚ) (i : ℕ), i ∈ v2QualRows edge thr ↔
      i < edge.h ∧
        (8:ℚ)/100 * (edge.w:ℚ) < (rowCount (v2StrongMask edge thr) edge.w i : ℚ)) ∧
    (∀ (img : Img) (i : ℕ), i ∈ ccAnyRows img ↔
      i < img.h ∧ 0 < rowCount (ccDarkMask img) img.w i) ∧
    (∀ (edge : Img) (thr : ℚ) (i : ℕ), i ∈ scAnyRows edge thr ↔
      i < edge.h ∧ 0 < rowCount (scStrongMask edge thr) edge.w i) ∧
    (∀ (work : Img) (t b l r : ℤ), autoEstimate work = some ((t, b), (l, r)) →
      (∀ i ∈ autoQualRows work, t ≤ (i:ℤ) ∧ (i:ℤ) ≤ b) ∧
      (∀ j ∈ autoQualCols work, l ≤ (j:ℤ) ∧ (j:ℤ) ≤ r)) := by
  refine ⟨?_, ?_, ?_, ?_, ?_⟩
  · intro work i
    rw [autoQualRows, mem_whereIdx, decide_eq_true_eq]
  · intro edge thr i
    rw [v2QualRows, mem_whereIdx, decide_eq_true_eq]
  · intro img i
    rw [ccAnyRows, mem_whereIdx, List.any_eq_true, rowCount]
    constructor
    · rintro ⟨h1, j, hj, hp⟩
      exact ⟨h1, List.countP_pos_iff.mpr ⟨j, hj, hp⟩⟩
    · rintro ⟨h1, h2⟩
      obtain ⟨j, hj, hp⟩ := List.countP_pos_iff.mp h2
      exact ⟨h1, j, hj, hp⟩
  · intro edge thr i
    rw [scAnyRows, mem_whereIdx, List.any_eq_true, rowCount]
    constructor
    · rintro ⟨h1, j, hj, hp⟩
      exact ⟨h1, List.countP_pos_iff.mpr ⟨j, hj, hp⟩⟩
    · rintro ⟨h1, h2⟩
      obtain ⟨j, hj, hp⟩ := List.countP_pos_iff.mp h2
      exact ⟨h1, j, hj, hp⟩
  · intro work t b l r h
    obtain ⟨tn, bn, ln, rn, hrow, hcol, ht, hb, hl, hr⟩ := autoEstimate_inv h
    obtain ⟨hrh, hrg⟩ := firstLast_eq_some hrow
    obtain ⟨hch, hcg⟩ := firstLast_eq_some hcol
    subst ht hb hl hr
    constructor
    · intro i hi
      exact ⟨by exact_mod_cast head?_le_of_pairwise (whereIdx_pairwise _ _) hrh hi,
        by exact_mod_cast le_getLast?_of_pairwise (whereIdx_pairwise _ _) hrg hi⟩
    · intro j hj
      exact ⟨by exact_mod_cast head?_le_of_pairwise (whereIdx_pairwise _ _) hch hj,
        by exact_mod_cast le_getLast?_of_pairwise (whereIdx_pairwise _ _) hcg hj⟩

theorem c6_amended_witness :
    (5 ∈ ccAnyRows imgDot ↔
      5 < imgDot.h ∧ 0 < rowCount (ccDarkMask imgDot) imgDot.w 5) ∧
    (0 ∈ autoQualRows imgTall ↔
      0 < imgTall.h ∧
        (15:ℚ)/100 * (imgTall.w:ℚ) <
          (rowCount (autoDarkMask imgTall) imgTall.w 0 : ℚ)) :=
  ⟨c6_amended.2.2.1 imgDot 5, c6_amended.1 imgTall 0⟩

/-! ## Amended claims: pipeline order (C3) -/

/-- A 3x3 edge grid with magnitudes 1..9 (strong edges in its last row
and columns), on which smart_crop_v2 estimates a box. -/
def gridDet : Img := ⟨3, 3, fun i j => 3 * i + j + 1⟩

theorem v2Estimate_inv {edge : Img} {e : (ℤ × ℤ) × (ℤ × ℤ)}
    (h : v2Estimate edge = some e) :
    ∃ (thr : ℚ) (tn bn ln rn : ℕ), v2Threshold edge = some thr ∧
      firstLast (v2QualRows edge thr) = some (tn, bn) ∧
      firstLast (v2QualCols edge thr) = some (ln, rn) ∧
      e = (((tn:ℤ), (bn:ℤ)), ((ln:ℤ), (rn:ℤ))) := by
  unfold v2Estimate at h
  split at h
  · exact absurd h (by simp)
  · rename_i thr hthr
    split at h
    · rename_i tn bn ln rn hrows hcols
      exact ⟨thr, tn, bn, ln, rn, hthr, hrows, hcols, (Option.some.inj h).symm⟩
    · exact absurd h (by simp)

/-- Claim C3 (amended): only smart_crop_v2 follows the claimed order
Estimator, then Corrector, then Margin, then rescale; the brightness
strategy applies the corrector LAST, in original-image coordinates,
after the margin and the rescale (the counterexample shows the two
orders differ observably). -/
theorem c3_amended :
    (∀ (W H : ℕ) (edge : Img) (ratio : ℚ) (mp : ℕ) (e : (ℤ × ℤ) × (ℤ × ℤ)),
      v2Estimate edge = some e →
      findCardByEdges W H edge ratio mp =
        some (v2RescaleClamp W H ratio (v2Margin edge mp (v2Aspect e)))) ∧
    (∀ (W H : ℕ) (work : Img) (ratio : ℚ) (mp : ℕ) (e : (ℤ × ℤ) × (ℤ × ℤ)),
      autoEstimate work = some e →
      findDarkRectangle W H work ratio mp =
        autoAspect W H (autoRescale ratio (autoMargin work mp e))) := by
  constructor
  · intro W H edge ratio mp e h
    obtain ⟨thr, tn, bn, ln, rn, hthr, hrows, hcols, he⟩ := v2Estimate_inv h
    subst he
    unfold findCardByEdges
    rw [hthr]
    simp only [hrows, hcols]
  · intro W H work ratio mp e h
    unfold findDarkRectangle
    rw [h]

theorem c3_amended_witness :
    v2Estimate gridDet = some ((2, 2), (1, 2)) ∧
    findCardByEdges 3 3 gridDet 1 4 =
      some (v2RescaleClamp 3 3 1 (v2Margin gridDet 4 (v2Aspect ((2, 2), (1, 2))))) ∧
    autoEstimate imgTall = some ((0, 10), (0, 6)) ∧
    findDarkRectangle 7 40 imgTall 1 30 =
      autoAspect 7 40 (autoRescale 1 (autoMargin imgTall 30 ((0, 10), (0, 6)))) := by
  have h1 : v2Estimate gridDet = some ((2, 2), (1, 2)) :=
    of_decide_eq_true (by with_unfolding_all rfl)
  have h2 : autoEstimate imgTall = some ((0, 10), (0, 6)) :=
    of_decide_eq_true (by with_unfolding_all rfl)
  exact ⟨h1, c3_amended.1 3 3 gridDet 1 4 _ h1, h2, c3_amended.2 7 40 imgTall 1 30 _ h2⟩

/-! ## Amended claims: the aspect corrector (C4) -/

/-- Claim C4 (amended): whenever the detected ratio lies outside the band
AND the detected box has even width, even top+bottom sum, and an even
corrected height `int(width*1.4)`, the recentring keeps the center point
(coordinate sums) and the detected width exactly, and sets the height to
`int(width*1.4)`; without the evenness conditions the toward-zero
truncation of the half extents can shrink the box by one pixel, as the
counterexample shows.  In particular a 400-wide, 300-tall box at an
integer center becomes 400 x 560 about the same center. -/
theorem c4_amended (t b l r : ℤ)
    (hband : (if 0 < r - l then ((b - t : ℤ):ℚ) / ((r - l : ℤ):ℚ) else 0) < 11/10 ∨
      9/5 < (if 0 < r - l then ((b - t : ℤ):ℚ) / ((r - l : ℤ):ℚ) else 0))
    (hw2 : 2 ∣ (r - l)) (hh2 : 2 ∣ (t + b))
    (hc2 : 2 ∣ pyInt (((r - l : ℤ):ℚ) * (7/5))) :
    (v2Aspect ((t, b), (l, r))).2.2 - (v2Aspect ((t, b), (l, r))).2.1 = r - l ∧
    (v2Aspect ((t, b), (l, r))).2.1 + (v2Aspect ((t, b), (l, r))).2.2 = l + r ∧
    (v2Aspect ((t, b), (l, r))).1.1 + (v2Aspect ((t, b), (l, r))).1.2 = t + b ∧
    (v2Aspect ((t, b), (l, r))).1.2 - (v2Aspect ((t, b), (l, r))).1.1 =
      pyInt (((r - l : ℤ):ℚ) * (7/5)) := by
  obtain ⟨k, hk⟩ := hw2
  obtain ⟨m, hm⟩ := hh2
  obtain ⟨n, hn⟩ := hc2
  have hcx : Int.fdiv (l + r) 2 = l + k := by
    rw [show l + r = 2 * (l + k) by omega]
    rw [Int.fdiv_eq_ediv _ (by norm_num)]
    omega
  have hcy : Int.fdiv (t + b) 2 = m := by
    rw [show t + b = 2 * m by omega]
    rw [Int.fdiv_eq_ediv _ (by norm_num)]
    omega
  have hL : pyInt (((l + k : ℤ):ℚ) - ((2 * k : ℤ):ℚ) / 2) = l := by
    rw [show (((l + k : ℤ):ℚ) - ((2 * k : ℤ):ℚ) / 2) = ((l : ℤ):ℚ) by push_cast; ring,
      pyInt_intCast]
  have hR : pyInt (((l + k : ℤ):ℚ) + ((2 * k : ℤ):ℚ) / 2) = l + 2 * k := by
    rw [show (((l + k : ℤ):ℚ) + ((2 * k : ℤ):ℚ) / 2) = ((l + 2 * k : ℤ):ℚ) by
      push_cast; ring, pyInt_intCast]
  have hT : pyInt (((m : ℤ):ℚ) - ((2 * n : ℤ):ℚ) / 2) = m - n := by
    rw [show (((m : ℤ):ℚ) - ((2 * n : ℤ):ℚ) / 2) = ((m - n : ℤ):ℚ) by push_cast; ring,
      pyInt_intCast]
  have hB : pyInt (((m : ℤ):ℚ) + ((2 * n : ℤ):ℚ) / 2) = m + n := by
    rw [show (((m : ℤ):ℚ) + ((2 * n : ℤ):ℚ) / 2) = ((m + n : ℤ):ℚ) by push_cast; ring,
      pyInt_intCast]
  simp only [v2Aspect]
  rw [if_pos hband, hcx, hcy, hn, hk, hL, hR, hT, hB]
  refine ⟨?_, ?_, ?_, ?_⟩ <;> dsimp only <;> omega

theorem c4_amended_witness :
    ((if 0 < (400:ℤ) - 0 then ((300 - 0 : ℤ):ℚ) / ((400 - 0 : ℤ):ℚ) else 0) < 11/10 ∨
      9/5 < (if 0 < (400:ℤ) - 0 then ((300 - 0 : ℤ):ℚ) / ((400 - 0 : ℤ):ℚ) else 0)) ∧
    (2 ∣ ((400:ℤ) - 0)) ∧ (2 ∣ ((0:ℤ) + 300)) ∧
    (2 ∣ pyInt ((((400:ℤ) - 0 : ℤ):ℚ) * (7/5))) ∧
    ((v2Aspect ((0, 300), (0, 400))).2.2 - (v2Aspect ((0, 300), (0, 400))).2.1 = 400 - 0 ∧
     (v2Aspect ((0, 300), (0, 400))).2.1 + (v2Aspect ((0, 300), (0, 400))).2.2 = 0 + 400 ∧
     (v2Aspect ((0, 300), (0, 400))).1.1 + (v2Aspect ((0, 300), (0, 400))).1.2 = 0 + 300 ∧
     (v2Aspect ((0, 300), (0, 400))).1.2 - (v2Aspect ((0, 300), (0, 400))).1.1 =
       pyInt ((((400:ℤ) - 0 : ℤ):ℚ) * (7/5))) := by
  have hband : (if 0 < (400:ℤ) - 0 then ((300 - 0 : ℤ):ℚ) / ((400 - 0 : ℤ):ℚ) else 0) < 11/10 ∨
      9/5 < (if 0 < (400:ℤ) - 0 then ((300 - 0 : ℤ):ℚ) / ((400 - 0 : ℤ):ℚ) else 0) :=
    of_decide_eq_true (by with_unfolding_all rfl)
  have hc2 : (2:ℤ) ∣ pyInt ((((400:ℤ) - 0 : ℤ):ℚ) * (7/5)) := by
    refine ⟨280, ?_⟩
    exact of_decide_eq_true (by with_unfolding_all rfl)
  exact ⟨hband, ⟨200, by norm_num⟩, ⟨150, by norm_num⟩, hc2,
    c4_amended 0 300 0 400 hband ⟨200, by norm_num⟩ ⟨150, by norm_num⟩ hc2⟩

/-! ## Amended claims: the fallback selectors (C7) -/

/-- Claim C7 (amended): whenever nothing qualifies each strategy returns
its deterministic fallback (total, never a further fallback or error),
but the margins are: 15 percent symmetric on the original dimensions
(brightness strategy), 15 percent horizontal with only 5 percent
vertical on the original dimensions (crop_card), and 20 percent
horizontal with 15 percent vertical computed on the WORKING dimensions
(smart_crop_card, rescaled by its caller). -/
theorem c7_amended :
    (∀ (W H : ℕ) (work : Img) (ratio : ℚ) (mp : ℕ), autoEstimate work = none →
      findDarkRectangle W H work ratio mp =
        ⟨pyInt ((W:ℚ) * (15/100)), pyInt ((H:ℚ) * (15/100)),
         pyInt ((W:ℚ) * (85/100)), pyInt ((H:ℚ) * (85/100))⟩) ∧
    (∀ (img : Img) (padding : ℕ), findCardBoundaries img padding = none →
      cropCardBox img padding =
        ⟨pyInt ((img.w:ℚ) * (15/100)), pyInt ((img.h:ℚ) * (5/100)),
         pyInt ((img.w:ℚ) * (85/100)), pyInt ((img.h:ℚ) * (95/100))⟩) ∧
    (∀ (edge : Img) (thr : ℚ), scThreshold edge = some thr →
      firstLast (scAnyRows edge thr) = none →
      findCardContour edge = some
        ⟨pyInt ((edge.w:ℚ) * (20/100)), pyInt ((edge.h:ℚ) * (15/100)),
         (edge.w:ℤ) - pyInt ((edge.w:ℚ) * (20/100)),
         (edge.h:ℤ) - pyInt ((edge.h:ℚ) * (15/100))⟩) := by
  refine ⟨?_, ?_, ?_⟩
  · intro W H work ratio mp h
    unfold findDarkRectangle
    rw [h]
    unfold autoFallback
    rw [show ((1:ℚ) - 15/100) = 85/100 by norm_num]
  · intro img padding h
    unfold cropCardBox
    rw [h]
  · intro edge thr hthr hrows
    unfold findCardContour
    rw [hthr]
    rcases hcols : firstLast (scAnyCols edge thr) with _ | ⟨ln, rn⟩ <;>
      simp only [hrows, hcols] <;> rfl

theorem c7_amended_witness :
    autoEstimate (Img.uniform 2 2 5) = none ∧
    findDarkRectangle 9 9 (Img.uniform 2 2 5) 1 3 =
      ⟨pyInt ((9:ℚ) * (15/100)), pyInt ((9:ℚ) * (15/100)),
       pyInt ((9:ℚ) * (85/100)), pyInt ((9:ℚ) * (85/100))⟩ ∧
    findCardBoundaries imgFlat 20 = none ∧
    cropCardBox imgFlat 20 =
      ⟨pyInt ((imgFlat.w:ℚ) * (15/100)), pyInt ((imgFlat.h:ℚ) * (5/100)),
       pyInt ((imgFlat.w:ℚ) * (85/100)), pyInt ((imgFlat.h:ℚ) * (95/100))⟩ ∧
    scThreshold (Img.uniform 2 2 4) = some 4 ∧
    firstLast (scAnyRows (Img.uniform 2 2 4) 4) = none ∧
    findCardContour (Img.uniform 2 2 4) = some
      ⟨pyInt (((Img.uniform 2 2 4).w:ℚ) * (20/100)),
       pyInt (((Img.uniform 2 2 4).h:ℚ) * (15/100)),
       ((Img.uniform 2 2 4).w:ℤ) - pyInt (((Img.uniform 2 2 4).w:ℚ) * (20/100)),
       ((Img.uniform 2 2 4).h:ℤ) - pyInt (((Img.uniform 2 2 4).h:ℚ) * (15/100))⟩ := by
  have h1 : autoEstimate (Img.uniform 2 2 5) = none :=
    of_decide_eq_true (by with_unfolding_all rfl)
  have h2 : findCardBoundaries imgFlat 20 = none :=
    of_decide_eq_true (by with_unfolding_all rfl)
  have h3 : scThreshold (Img.uniform 2 2 4) = some 4 :=
    of_decide_eq_true (by with_unfolding_all rfl)
  have h4 : firstLast (scAnyRows (Img.uniform 2 2 4) 4) = none :=
    of_decide_eq_true (by with_unfolding_all rfl)
  exact ⟨h1, c7_amended.1 9 9 _ 1 3 h1, h2, c7_amended.2.1 imgFlat 20 h2,
    h3, h4, c7_amended.2.2 _ 4 h3 h4⟩

/-! ## Box bounds through the pipeline (toward C1) -/

/-- Invariant of a boundary estimate: ordered indices inside the working
canvas (first component rows, second columns). -/
def estInv (e : (ℤ × ℤ) × (ℤ × ℤ)) (ww wh : ℕ) : Prop :=
  0 ≤ e.1.1 ∧ e.1.1 ≤ e.1.2 ∧ e.1.2 < (wh:ℤ) ∧
  0 ≤ e.2.1 ∧ e.2.1 ≤ e.2.2 ∧ e.2.2 < (ww:ℤ)

/-- What survives an in-work recentring: order and one-sided bounds (the
recentered box may stick out of the canvas on either side). -/
def weakInv (e : (ℤ × ℤ) × (ℤ × ℤ)) (ww wh : ℕ) : Prop :=
  e.1.1 ≤ e.1.2 ∧ 0 ≤ e.1.2 ∧ e.1.1 < (wh:ℤ) ∧
  e.2.1 ≤ e.2.2 ∧ 0 ≤ e.2.2 ∧ e.2.1 < (ww:ℤ)

/-- Invariant of a clamped box inside a canvas. -/
def boxInv (e : (ℤ × ℤ) × (ℤ × ℤ)) (ww wh : ℕ) : Prop :=
  0 ≤ e.1.1 ∧ e.1.1 ≤ e.1.2 ∧ e.1.2 ≤ (wh:ℤ) ∧
  0 ≤ e.2.1 ∧ e.2.1 ≤ e.2.2 ∧ e.2.2 ≤ (ww:ℤ)

theorem estInv_weakInv {e : (ℤ × ℤ) × (ℤ × ℤ)} {ww wh : ℕ}
    (h : estInv e ww wh) : weakInv e ww wh := by
  obtain ⟨h1, h2, h3, h4, h5, h6⟩ := h
  exact ⟨h2, by omega, by omega, h5, by omega, by omega⟩

theorem autoEstimate_estInv {work : Img} {e : (ℤ × ℤ) × (ℤ × ℤ)}
    (h : autoEstimate work = some e) : estInv e work.w work.h := by
  rcases e with ⟨⟨t, b⟩, l, r⟩
  obtain ⟨tn, bn, ln, rn, hrow, hcol, ht, hb, hl, hr⟩ := autoEstimate_inv h
  obtain ⟨hr1, hr2, -, -⟩ := firstLast_whereIdx_bounds hrow
  obtain ⟨hc1, hc2, -, -⟩ := firstLast_whereIdx_bounds hcol
  subst ht hb hl hr
  unfold estInv
  dsimp only
  omega

theorem v2Estimate_estInv {edge : Img} {e : (ℤ × ℤ) × (ℤ × ℤ)}
    (h : v2Estimate edge = some e) : estInv e edge.w edge.h := by
  obtain ⟨thr, tn, bn, ln, rn, hthr, hrows, hcols, he⟩ := v2Estimate_inv h
  subst he
  obtain ⟨hr1, hr2, -, -⟩ := firstLast_whereIdx_bounds hrows
  obtain ⟨hc1, hc2, -, -⟩ := firstLast_whereIdx_bounds hcols
  unfold estInv
  dsimp only
  omega

/-- Bounds of the two truncated half-extent coordinates around a center. -/
theorem recenter_bounds (c d : ℤ) (hc : 0 ≤ d) :
    pyInt ((c:ℚ) - (d:ℚ) / 2) ≤ c ∧ c ≤ pyInt ((c:ℚ) + (d:ℚ) / 2) ∧
      pyInt ((c:ℚ) - (d:ℚ) / 2) ≤ pyInt ((c:ℚ) + (d:ℚ) / 2) := by
  have h0 : (0:ℚ) ≤ (d:ℚ) := by exact_mod_cast hc
  refine ⟨?_, ?_, pyInt_mono (by linarith)⟩
  · calc pyInt ((c:ℚ) - (d:ℚ) / 2) ≤ pyInt ((c:ℚ)) := pyInt_mono (by linarith)
    _ = c := pyInt_intCast c
  · calc c = pyInt ((c:ℚ)) := (pyInt_intCast c).symm
    _ ≤ pyInt ((c:ℚ) + (d:ℚ) / 2) := pyInt_mono (by linarith)

theorem v2Aspect_weakInv {e : (ℤ × ℤ) × (ℤ × ℤ)} {ww wh : ℕ}
    (h : estInv e ww wh) : weakInv (v2Aspect e) ww wh := by
  rcases e with ⟨⟨t, b⟩, l, r⟩
  obtain ⟨h1, h2, h3, h4, h5, h6⟩ := h
  dsimp only at h1 h2 h3 h4 h5 h6
  simp only [v2Aspect]
  set ar : ℚ := if 0 < r - l then ((b - t : ℤ):ℚ) / ((r - l : ℤ):ℚ) else 0 with har
  split
  · have hcw : (0:ℤ) ≤ r - l := by omega
    have hch : 0 ≤ pyInt (((r - l : ℤ):ℚ) * (7/5)) :=
      pyInt_nonneg (mul_nonneg (by exact_mod_cast hcw) (by norm_num))
    have hcx1 : l ≤ Int.fdiv (l + r) 2 := le_fdiv2 (by omega)
    have hcx2 : Int.fdiv (l + r) 2 ≤ r := fdiv2_le (by omega)
    have hcy1 : t ≤ Int.fdiv (t + b) 2 := le_fdiv2 (by omega)
    have hcy2 : Int.fdiv (t + b) 2 ≤ b := fdiv2_le (by omega)
    obtain ⟨hx1, hx2, hx3⟩ := recenter_bounds (Int.fdiv (l + r) 2) (r - l) hcw
    obtain ⟨hy1, hy2, hy3⟩ :=
      recenter_bounds (Int.fdiv (t + b) 2)
        (pyInt (((r - l : ℤ):ℚ) * (7/5))) hch
    unfold weakInv
    try dsimp only
    omega
  · unfold weakInv
    try dsimp only
    omega

/-- The margin applier takes any weakly invariant box to a clamped box. -/
theorem margin_clamp_boxInv {t b l r mh mw : ℤ} {ww wh : ℕ}
    (h : weakInv ((t, b), (l, r)) ww wh) (hmh : 0 ≤ mh) (hmw : 0 ≤ mw) :
    boxInv ((max 0 (t - mh), min (wh:ℤ) (b + mh)),
            (max 0 (l - mw), min (ww:ℤ) (r + mw))) ww wh := by
  obtain ⟨h1, h2, h3, h4, h5, h6⟩ := h
  dsimp only at h1 h2 h3 h4 h5 h6
  unfold boxInv
  dsimp only
  omega

theorem autoMargin_boxInv {work : Img} {mp : ℕ} {e : (ℤ × ℤ) × (ℤ × ℤ)}
    (h : weakInv e work.w work.h) : boxInv (autoMargin work mp e) work.w work.h := by
  rcases e with ⟨⟨t, b⟩, l, r⟩
  have htb : t ≤ b := h.1
  have hlr : l ≤ r := h.2.2.2.1
  have hmh : 0 ≤ pyInt (((b - t : ℤ):ℚ) * (mp:ℚ) / 100) := by
    apply pyInt_nonneg
    have : (0:ℚ) ≤ ((b - t : ℤ):ℚ) := by exact_mod_cast (by omega : (0:ℤ) ≤ b - t)
    positivity
  have hmw : 0 ≤ pyInt (((r - l : ℤ):ℚ) * (mp:ℚ) / 100) := by
    apply pyInt_nonneg
    have : (0:ℚ) ≤ ((r - l : ℤ):ℚ) := by exact_mod_cast (by omega : (0:ℤ) ≤ r - l)
    positivity
  simp only [autoMargin]
  exact margin_clamp_boxInv h hmh hmw

theorem v2Margin_boxInv {edge : Img} {mp : ℕ} {e : (ℤ × ℤ) × (ℤ × ℤ)}
    (h : weakInv e edge.w edge.h) : boxInv (v2Margin edge mp e) edge.w edge.h := by
  rcases e with ⟨⟨t, b⟩, l, r⟩
  have htb : t ≤ b := h.1
  have hlr : l ≤ r := h.2.2.2.1
  have hmh : 0 ≤ pyInt (((b - t : ℤ):ℚ) * (mp:ℚ) / 100) := by
    apply pyInt_nonneg
    have : (0:ℚ) ≤ ((b - t : ℤ):ℚ) := by exact_mod_cast (by omega : (0:ℤ) ≤ b - t)
    positivity
  have hmw : 0 ≤ pyInt (((r - l : ℤ):ℚ) * (mp:ℚ) / 100) := by
    apply pyInt_nonneg
    have : (0:ℚ) ≤ ((r - l : ℤ):ℚ) := by exact_mod_cast (by omega : (0:ℤ) ≤ r - l)
    positivity
  simp only [v2Margin]
  exact margin_clamp_boxInv h hmh hmw

/-- Dividing ordered in-canvas coordinates by the resize ratio keeps them
ordered and within the original extent. -/
theorem rescale_bounds {x y : ℤ} {ratio : ℚ} {ww W : ℕ}
    (hx : 0 ≤ x) (hxy : x ≤ y) (hyw : y ≤ (ww:ℤ)) (hr : 0 < ratio)
    (hW : (ww:ℚ) ≤ (W:ℚ) * ratio) :
    0 ≤ pyInt ((x:ℚ) / ratio) ∧ pyInt ((x:ℚ) / ratio) ≤ pyInt ((y:ℚ) / ratio) ∧
      pyInt ((y:ℚ) / ratio) ≤ (W:ℤ) := by
  refine ⟨pyInt_nonneg (div_nonneg (by exact_mod_cast hx) hr.le),
    pyInt_mono (by gcongr), ?_⟩
  apply pyInt_le_of_le_int
  rw [div_le_iff₀ hr]
  calc ((y:ℤ):ℚ) ≤ ((ww:ℕ):ℚ) := by exact_mod_cast hyw
  _ ≤ (W:ℚ) * ratio := hW
  _ = (((W:ℕ):ℤ):ℚ) * ratio := by push_cast; ring

theorem autoRescale_boxInv {ratio : ℚ} {e : (ℤ × ℤ) × (ℤ × ℤ)} {ww wh W H : ℕ}
    (h : boxInv e ww wh) (hr : 0 < ratio)
    (hW : (ww:ℚ) ≤ (W:ℚ) * ratio) (hH : (wh:ℚ) ≤ (H:ℚ) * ratio) :
    boxInv (autoRescale ratio e) W H := by
  rcases e with ⟨⟨t, b⟩, l, r⟩
  obtain ⟨h1, h2, h3, h4, h5, h6⟩ := h
  dsimp only at h1 h2 h3 h4 h5 h6
  obtain ⟨hy1, hy2, hy3⟩ := rescale_bounds h1 h2 h3 hr hH
  obtain ⟨hx1, hx2, hx3⟩ := rescale_bounds h4 h5 h6 hr hW
  simp only [autoRescale]
  exact ⟨hy1, hy2, hy3, hx1, hx2, hx3⟩

theorem autoAspect_ordered {e : (ℤ × ℤ) × (ℤ × ℤ)} {W H : ℕ}
    (h : boxInv e W H) : (autoAspect W H e).ordered W H := by
  rcases e with ⟨⟨t, b⟩, l, r⟩
  obtain ⟨h1, h2, h3, h4, h5, h6⟩ := h
  dsimp only at h1 h2 h3 h4 h5 h6
  simp only [autoAspect]
  set ar : ℚ := if 0 < r - l then ((b - t : ℤ):ℚ) / ((r - l : ℤ):ℚ) else 0 with har
  split
  · have hcw : (0:ℤ) ≤ r - l := by omega
    have hch : 0 ≤ pyInt (((r - l : ℤ):ℚ) * (7/5)) :=
      pyInt_nonneg (mul_nonneg (by exact_mod_cast hcw) (by norm_num))
    have hcx1 : l ≤ Int.fdiv (l + r) 2 := le_fdiv2 (by omega)
    have hcx2 : Int.fdiv (l + r) 2 ≤ r := fdiv2_le (by omega)
    have hcy1 : t ≤ Int.fdiv (t + b) 2 := le_fdiv2 (by omega)
    have hcy2 : Int.fdiv (t + b) 2 ≤ b := fdiv2_le (by omega)
    obtain ⟨hx1, hx2, hx3⟩ := recenter_bounds (Int.fdiv (l + r) 2) (r - l) hcw
    obtain ⟨hy1, hy2, hy3⟩ :=
      recenter_bounds (Int.fdiv (t + b) 2)
        (pyInt (((r - l : ℤ):ℚ) * (7/5))) hch
    unfold Box.ordered
    try dsimp only
    omega
  · unfold Box.ordered
    try dsimp only
    omega

theorem v2RescaleClamp_ordered {e : (ℤ × ℤ) × (ℤ × ℤ)} {ww wh W H : ℕ} {ratio : ℚ}
    (h : boxInv e ww wh) (hr : 0 < ratio)
    (hW : (ww:ℚ) ≤ (W:ℚ) * ratio) (hH : (wh:ℚ) ≤ (H:ℚ) * ratio) :
    (v2RescaleClamp W H ratio e).ordered W H := by
  rcases e with ⟨⟨t, b⟩, l, r⟩
  obtain ⟨h1, h2, h3, h4, h5, h6⟩ := h
  dsimp only at h1 h2 h3 h4 h5 h6
  obtain ⟨hy1, hy2, hy3⟩ := rescale_bounds h1 h2 h3 hr hH
  obtain ⟨hx1, hx2, hx3⟩ := rescale_bounds h4 h5 h6 hr hW
  simp only [v2RescaleClamp]
  unfold Box.ordered
  dsimp only
  omega

theorem autoFallback_ordered (W H : ℕ) : (autoFallback W H).ordered W H := by
  unfold autoFallback Box.ordered
  dsimp only
  have p1 : 0 ≤ pyInt ((W:ℚ) * (15/100)) := pyInt_nonneg (by positivity)
  have p2 : pyInt ((W:ℚ) * (15/100)) ≤ pyInt ((W:ℚ) * (1 - 15/100)) := by
    apply pyInt_mono
    have h0 : (0:ℚ) ≤ (W:ℚ) := Nat.cast_nonneg W
    nlinarith
  have p3 : pyInt ((W:ℚ) * (1 - 15/100)) ≤ (W:ℤ) := by
    apply pyInt_le_of_le_int
    have : (0:ℚ) ≤ (W:ℚ) := Nat.cast_nonneg W
    push_cast
    nlinarith
  have q1 : 0 ≤ pyInt ((H:ℚ) * (15/100)) := pyInt_nonneg (by positivity)
  have q2 : pyInt ((H:ℚ) * (15/100)) ≤ pyInt ((H:ℚ) * (1 - 15/100)) := by
    apply pyInt_mono
    have h0 : (0:ℚ) ≤ (H:ℚ) := Nat.cast_nonneg H
    nlinarith
  have q3 : pyInt ((H:ℚ) * (1 - 15/100)) ≤ (H:ℤ) := by
    apply pyInt_le_of_le_int
    have : (0:ℚ) ≤ (H:ℚ) := Nat.cast_nonneg H
    push_cast
    nlinarith
  exact ⟨p1, p2, p3, q1, q2, q3⟩

theorem fallbackCenterCrop_ordered (W H : ℕ) :
    (fallbackCenterCrop W H).ordered W H := by
  unfold fallbackCenterCrop Box.ordered
  dsimp only
  have p1 : 0 ≤ pyInt ((W:ℚ) * (18/100)) := pyInt_nonneg (by positivity)
  have p2 : pyInt ((W:ℚ) * (18/100)) ≤ pyInt ((W:ℚ) * (1 - 18/100)) := by
    apply pyInt_mono
    have h0 : (0:ℚ) ≤ (W:ℚ) := Nat.cast_nonneg W
    nlinarith
  have p3 : pyInt ((W:ℚ) * (1 - 18/100)) ≤ (W:ℤ) := by
    apply pyInt_le_of_le_int
    have : (0:ℚ) ≤ (W:ℚ) := Nat.cast_nonneg W
    push_cast
    nlinarith
  have q1 : 0 ≤ pyInt ((H:ℚ) * (18/100)) := pyInt_nonneg (by positivity)
  have q2 : pyInt ((H:ℚ) * (18/100)) ≤ pyInt ((H:ℚ) * (1 - 18/100)) := by
    apply pyInt_mono
    have h0 : (0:ℚ) ≤ (H:ℚ) := Nat.cast_nonneg H
    nlinarith
  have q3 : pyInt ((H:ℚ) * (1 - 18/100)) ≤ (H:ℤ) := by
    apply pyInt_le_of_le_int
    have : (0:ℚ) ≤ (H:ℚ) := Nat.cast_nonneg H
    push_cast
    nlinarith
  exact ⟨p1, p2, p3, q1, q2, q3⟩

/-- Claim C1 (amended): for every working/edge grid consistent with the
source's resize bookkeeping (ratio positive, working extents at most the
original extents scaled), every margin percent, and both strategies,
the returned box satisfies the NON-STRICT chain
`0 ≤ left ≤ right ≤ width`, `0 ≤ top ≤ bottom ≤ height` in original
coordinates.  The claimed strict inequalities fail (see the
counterexample). -/
theorem c1_amended (W H : ℕ) (work edge : Img) (ratio : ℚ) (mp : ℕ)
    (hr : 0 < ratio)
    (hww : (work.w:ℚ) ≤ (W:ℚ) * ratio) (hwh : (work.h:ℚ) ≤ (H:ℚ) * ratio)
    (hew : (edge.w:ℚ) ≤ (W:ℚ) * ratio) (heh : (edge.h:ℚ) ≤ (H:ℚ) * ratio) :
    (findDarkRectangle W H work ratio mp).ordered W H ∧
    ∀ bx, findCardByEdges W H edge ratio mp = some bx → bx.ordered W H := by
  constructor
  · rcases he : autoEstimate work with _ | e
    · unfold findDarkRectangle
      rw [he]
      exact autoFallback_ordered W H
    · unfold findDarkRectangle
      rw [he]
      exact autoAspect_ordered
        (autoRescale_boxInv
          (autoMargin_boxInv (estInv_weakInv (autoEstimate_estInv he))) hr hww hwh)
  · intro bx hbx
    unfold findCardByEdges at hbx
    split at hbx
    · exact absurd hbx (by simp)
    · rename_i thr hthr
      split at hbx
      · rename_i tn bn ln rn hrows hcols
        have hest : v2Estimate edge = some (((tn:ℤ), (bn:ℤ)), ((ln:ℤ), (rn:ℤ))) := by
          unfold v2Estimate
          rw [hthr]
          simp only [hrows, hcols]
        rw [← Option.some.inj hbx]
        exact v2RescaleClamp_ordered
          (v2Margin_boxInv (v2Aspect_weakInv (v2Estimate_estInv hest))) hr hew heh
      · rw [← Option.some.inj hbx]
        exact fallbackCenterCrop_ordered W H

theorem c1_amended_witness :
    ((0:ℚ) < 1 ∧ (imgTall.w:ℚ) ≤ (7:ℚ) * 1 ∧ (imgTall.h:ℚ) ≤ (40:ℚ) * 1 ∧
      (gridDet.w:ℚ) ≤ (7:ℚ) * 1 ∧ (gridDet.h:ℚ) ≤ (40:ℚ) * 1) ∧
    (findDarkRectangle 7 40 imgTall 1 3).ordered 7 40 ∧
    (∀ bx, findCardByEdges 7 40 gridDet 1 3 = some bx → bx.ordered 7 40) := by
  have h1 : (0:ℚ) < 1 := by norm_num
  have h2 : (imgTall.w:ℚ) ≤ (7:ℚ) * 1 := of_decide_eq_true (by with_unfolding_all rfl)
  have h3 : (imgTall.h:ℚ) ≤ (40:ℚ) * 1 := of_decide_eq_true (by with_unfolding_all rfl)
  have h4 : (gridDet.w:ℚ) ≤ (7:ℚ) * 1 := of_decide_eq_true (by with_unfolding_all rfl)
  have h5 : (gridDet.h:ℚ) ≤ (40:ℚ) * 1 := of_decide_eq_true (by with_unfolding_all rfl)
  exact ⟨⟨h1, h2, h3, h4, h5⟩,
    c1_amended 7 40 imgTall gridDet 1 3 h1 h2 h3 h4 h5⟩

/-! ## Amended claims: margin monotonicity (C9) -/

theorem pyInt_div_mono {x y : ℤ} {ratio : ℚ} (hr : 0 < ratio) (h : x ≤ y) :
    pyInt ((x:ℚ) / ratio) ≤ pyInt ((y:ℚ) / ratio) := by
  apply pyInt_mono
  gcongr

/-- Margin application followed by rescale-and-clamp is monotone in the
margin percent, for a fixed (already corrected) box. -/
theorem margin_rescale_mono {t b l r : ℤ} {edge : Img} {W H : ℕ} {ratio : ℚ}
    {mp1 mp2 : ℕ} (hr : 0 < ratio) (hmp : mp1 ≤ mp2)
    (htb : t ≤ b) (hlr : l ≤ r) :
    (v2RescaleClamp W H ratio (v2Margin edge mp1 ((t, b), (l, r)))).right -
      (v2RescaleClamp W H ratio (v2Margin edge mp1 ((t, b), (l, r)))).left ≤
    (v2RescaleClamp W H ratio (v2Margin edge mp2 ((t, b), (l, r)))).right -
      (v2RescaleClamp W H ratio (v2Margin edge mp2 ((t, b), (l, r)))).left ∧
    (v2RescaleClamp W H ratio (v2Margin edge mp1 ((t, b), (l, r)))).bottom -
      (v2RescaleClamp W H ratio (v2Margin edge mp1 ((t, b), (l, r)))).top ≤
    (v2RescaleClamp W H ratio (v2Margin edge mp2 ((t, b), (l, r)))).bottom -
      (v2RescaleClamp W H ratio (v2Margin edge mp2 ((t, b), (l, r)))).top := by
  have hd1 : (0:ℚ) ≤ ((b - t : ℤ):ℚ) := by exact_mod_cast (by omega : (0:ℤ) ≤ b - t)
  have hd2 : (0:ℚ) ≤ ((r - l : ℤ):ℚ) := by exact_mod_cast (by omega : (0:ℤ) ≤ r - l)
  have hmp' : ((mp1:ℕ):ℚ) ≤ ((mp2:ℕ):ℚ) := by exact_mod_cast hmp
  have hmh : pyInt (((b - t : ℤ):ℚ) * ((mp1:ℕ):ℚ) / 100) ≤
      pyInt (((b - t : ℤ):ℚ) * ((mp2:ℕ):ℚ) / 100) := by
    apply pyInt_mono
    gcongr
  have hmw : pyInt (((r - l : ℤ):ℚ) * ((mp1:ℕ):ℚ) / 100) ≤
      pyInt (((r - l : ℤ):ℚ) * ((mp2:ℕ):ℚ) / 100) := by
    apply pyInt_mono
    gcongr
  simp only [v2Margin, v2RescaleClamp]
  constructor
  · have i1 : pyInt (((max 0 (l - pyInt (((r - l : ℤ):ℚ) * ((mp2:ℕ):ℚ) / 100)) : ℤ):ℚ) / ratio) ≤
        pyInt (((max 0 (l - pyInt (((r - l : ℤ):ℚ) * ((mp1:ℕ):ℚ) / 100)) : ℤ):ℚ) / ratio) :=
      pyInt_div_mono hr (by omega)
    have i2 : pyInt (((min (edge.w:ℤ) (r + pyInt (((r - l : ℤ):ℚ) * ((mp1:ℕ):ℚ) / 100)) : ℤ):ℚ) / ratio) ≤
        pyInt (((min (edge.w:ℤ) (r + pyInt (((r - l : ℤ):ℚ) * ((mp2:ℕ):ℚ) / 100)) : ℤ):ℚ) / ratio) :=
      pyInt_div_mono hr (by omega)
    omega
  · have i1 : pyInt (((max 0 (t - pyInt (((b - t : ℤ):ℚ) * ((mp2:ℕ):ℚ) / 100)) : ℤ):ℚ) / ratio) ≤
        pyInt (((max 0 (t - pyInt (((b - t : ℤ):ℚ) * ((mp1:ℕ):ℚ) / 100)) : ℤ):ℚ) / ratio) :=
      pyInt_div_mono hr (by omega)
    have i2 : pyInt (((min (edge.h:ℤ) (b + pyInt (((b - t : ℤ):ℚ) * ((mp1:ℕ):ℚ) / 100)) : ℤ):ℚ) / ratio) ≤
        pyInt (((min (edge.h:ℤ) (b + pyInt (((b - t : ℤ):ℚ) * ((mp2:ℕ):ℚ) / 100)) : ℤ):ℚ) / ratio) :=
      pyInt_div_mono hr (by omega)
    omega

/-- Claim C9 (amended): for smart_crop_v2, whose corrector runs before
the margin applier, increasing the margin percent never decreases the
returned width or height, with no clamping proviso needed; the
brightness strategy violates the claim because its late corrector can
shrink the box (see the counterexample). -/
theorem c9_amended (W H : ℕ) (edge : Img) (ratio : ℚ) (mp1 mp2 : ℕ)
    (hr : 0 < ratio) (hmp : mp1 ≤ mp2) (b1 b2 : Box)
    (h1 : findCardByEdges W H edge ratio mp1 = some b1)
    (h2 : findCardByEdges W H edge ratio mp2 = some b2) :
    b1.right - b1.left ≤ b2.right - b2.left ∧
    b1.bottom - b1.top ≤ b2.bottom - b2.top := by
  unfold findCardByEdges at h1 h2
  split at h1
  · exact absurd h1 (by simp)
  · rename_i thr hthr
    split at h2
    · rename_i hthr2
      rw [hthr] at hthr2
      exact absurd hthr2 (by simp)
    · rename_i thr2 hthr2
      rw [hthr] at hthr2
      obtain rfl : thr = thr2 := Option.some.inj hthr2
      split at h1
      · rename_i tn bn ln rn hrows hcols
        simp only [hrows, hcols] at h2
        have hb1 := (Option.some.inj h1).symm
        have hb2 := (Option.some.inj h2).symm
        subst hb1
        subst hb2
        have hest : v2Estimate edge = some (((tn:ℤ), (bn:ℤ)), ((ln:ℤ), (rn:ℤ))) := by
          unfold v2Estimate
          rw [hthr]
          simp only [hrows, hcols]
        have hweak := v2Aspect_weakInv (v2Estimate_estInv hest)
        rcases hA : v2Aspect (((tn:ℤ), (bn:ℤ)), ((ln:ℤ), (rn:ℤ))) with ⟨⟨t', b'⟩, l', r'⟩
        rw [hA] at hweak
        exact margin_rescale_mono hr hmp hweak.1 hweak.2.2.2.1
      · rename_i hfail
        rcases hrows : firstLast (v2QualRows edge thr) with _ | ⟨tn, bn⟩ <;>
          rcases hcols : firstLast (v2QualCols edge thr) with _ | ⟨ln, rn⟩ <;>
            simp only [hrows, hcols] at h2
        · rw [← Option.some.inj h1, ← Option.some.inj h2]
          exact ⟨le_refl _, le_refl _⟩
        · rw [← Option.some.inj h1, ← Option.some.inj h2]
          exact ⟨le_refl _, le_refl _⟩
        · rw [← Option.some.inj h1, ← Option.some.inj h2]
          exact ⟨le_refl _, le_refl _⟩
        · exact (hfail tn bn ln rn hrows hcols).elim

theorem c9_amended_witness :
    (0 ≤ 7 ∧
      findCardByEdges 9 9 (Img.uniform 2 2 4) 1 0 = some (fallbackCenterCrop 9 9) ∧
      findCardByEdges 9 9 (Img.uniform 2 2 4) 1 7 = some (fallbackCenterCrop 9 9)) ∧
    ((fallbackCenterCrop 9 9).right - (fallbackCenterCrop 9 9).left ≤
       (fallbackCenterCrop 9 9).right - (fallbackCenterCrop 9 9).left ∧
     (fallbackCenterCrop 9 9).bottom - (fallbackCenterCrop 9 9).top ≤
       (fallbackCenterCrop 9 9).bottom - (fallbackCenterCrop 9 9).top) := by
  have ha : findCardByEdges 9 9 (Img.uniform 2 2 4) 1 0 = some (fallbackCenterCrop 9 9) :=
    of_decide_eq_true (by with_unfolding_all rfl)
  have hb : findCardByEdges 9 9 (Img.uniform 2 2 4) 1 7 = some (fallbackCenterCrop 9 9) :=
    of_decide_eq_true (by with_unfolding_all rfl)
  exact ⟨⟨by omega, ha, hb⟩,
    c9_amended 9 9 (Img.uniform 2 2 4) 1 0 7 one_pos (by omega) _ _ ha hb⟩

/-! ## Uniform images (toward C2) -/

theorem flatten_replicate {α : Type} (n m : ℕ) (a : α) :
    (List.replicate n (List.replicate m a)).flatten = List.replicate (n * m) a := by
  induction n with
  | zero => simp
  | succ p ih =>
    rw [List.replicate_succ, List.flatten_cons, ih, ← List.replicate_add]
    congr 1
    ring

theorem pixelList_uniform (w h c : ℕ) :
    pixelList (Img.uniform w h c) = List.replicate (h * w) c := by
  unfold pixelList Img.uniform
  dsimp only
  rw [show (List.range w).map (fun _ : ℕ => c) = List.replicate w c from
      (List.map_const' _ c).trans (by rw [List.length_range])]
  rw [show (List.range h).map (fun _ : ℕ => List.replicate w c) =
      List.replicate h (List.replicate w c) from
      (List.map_const' _ _).trans (by rw [List.length_range])]
  exact flatten_replicate h w c

theorem npMean_uniform (w h c : ℕ) :
    npMean (Img.uniform w h c) = if h * w = 0 then 0 else (c:ℚ) := by
  unfold npMean
  rw [pixelList_uniform, List.sum_replicate, List.length_replicate, smul_eq_mul]
  by_cases h0 : h * w = 0
  · rw [if_pos h0, h0]
    simp
  · rw [if_neg h0]
    have hn : ((h * w : ℕ):ℚ) ≠ 0 := Nat.cast_ne_zero.mpr h0
    rw [Nat.cast_mul, mul_comm ((h * w : ℕ):ℚ) (c:ℚ), mul_div_assoc, div_self hn, mul_one]

/-- On a uniform image no sample lies strictly below the mean, so every
mean-minus-std mask is empty. -/
theorem uniformMask_false (w h c i j : ℕ) (k2 : ℚ) :
    ltMeanMinusStd ((Img.uniform w h c).px i j) (npMean (Img.uniform w h c))
      (npVar (Img.uniform w h c)) k2 = false := by
  have hpx : (Img.uniform w h c).px i j = c := rfl
  unfold ltMeanMinusStd
  rw [hpx, npMean_uniform]
  by_cases h0 : h * w = 0
  · rw [if_pos h0]
    have hno : ¬(0 < (0:ℚ) - (c:ℕ)) := by
      have : (0:ℚ) ≤ ((c:ℕ):ℚ) := Nat.cast_nonneg c
      linarith
    rw [decide_eq_false hno, Bool.false_and]
  · rw [if_neg h0]
    have hno : ¬(0 < ((c:ℕ):ℚ) - ((c:ℕ):ℚ)) := by linarith
    rw [decide_eq_false hno, Bool.false_and]

theorem autoQualRows_uniform (w h c : ℕ) : autoQualRows (Img.uniform w h c) = [] := by
  unfold autoQualRows whereIdx
  apply List.filter_eq_nil_iff.mpr
  intro a _
  have hcount : rowCount (autoDarkMask (Img.uniform w h c)) (Img.uniform w h c).w a = 0 := by
    unfold rowCount
    apply List.countP_eq_zero.mpr
    intro x _
    unfold autoDarkMask
    rw [uniformMask_false]
    simp
  rw [hcount]
  simp only [Nat.cast_zero, decide_eq_true_eq, not_lt]
  positivity

theorem autoQualCols_uniform (w h c : ℕ) : autoQualCols (Img.uniform w h c) = [] := by
  unfold autoQualCols whereIdx
  apply List.filter_eq_nil_iff.mpr
  intro a _
  have hcount : colCount (autoDarkMask (Img.uniform w h c)) (Img.uniform w h c).h a = 0 := by
    unfold colCount
    apply List.countP_eq_zero.mpr
    intro x _
    unfold autoDarkMask
    rw [uniformMask_false]
    simp
  rw [hcount]
  simp only [Nat.cast_zero, decide_eq_true_eq, not_lt]
  positivity

/-- The brightness strategy falls back on every uniform image. -/
theorem findDarkRectangle_uniform (W H w h c : ℕ) (ratio : ℚ) (mp : ℕ) :
    findDarkRectangle W H (Img.uniform w h c) ratio mp = autoFallback W H := by
  unfold findDarkRectangle autoEstimate
  rw [autoQualRows_uniform, autoQualCols_uniform]
  rfl

theorem contrast2_uniform (w h c : ℕ) (hw : 1 ≤ w) (hh : 1 ≤ h) (hc : c ≤ 255) :
    contrast2 (Img.uniform w h c) = Img.uniform w h c := by
  have h0 : h * w ≠ 0 := Nat.mul_ne_zero (by omega) (by omega)
  have hm : ⌊npMean (Img.uniform w h c) + 1/2⌋ = (c:ℤ) := by
    rw [npMean_uniform, if_neg h0, Int.floor_eq_iff]
    constructor
    · push_cast
      linarith
    · push_cast
      linarith
  unfold contrast2
  conv_rhs => unfold Img.uniform
  congr 1
  funext i j
  have hpx : (Img.uniform w h c).px i j = c := rfl
  rw [hm, hpx]
  unfold clamp255
  omega

theorem findEdges_uniform_vals (w h c i j : ℕ) :
    (findEdges (Img.uniform w h c)).px i j = 0 ∨
      (findEdges (Img.uniform w h c)).px i j = c := by
  unfold findEdges
  dsimp only
  split
  · exact Or.inr rfl
  · left
    have hpx : ∀ a b : ℕ, (Img.uniform w h c).px a b = c := fun _ _ => rfl
    simp only [hpx]
    unfold clamp255
    omega

theorem findEdges_uniform_corner (w h c : ℕ) :
    (findEdges (Img.uniform w h c)).px 0 0 = c := by
  unfold findEdges
  dsimp only
  rw [if_pos (Or.inl rfl)]
  rfl

theorem maxFilter_le {g : Img} {c : ℕ} (hg : ∀ i j, g.px i j ≤ c) (r i j : ℕ) :
    (maxFilter r g).px i j ≤ c := by
  unfold maxFilter
  dsimp only
  apply foldr_max_le
  intro x hx
  obtain ⟨di, _, rfl⟩ := List.mem_map.mp hx
  apply foldr_max_le
  intro y hy
  obtain ⟨dj, _, rfl⟩ := List.mem_map.mp hy
  exact hg _ _

theorem maxFilter_vals {g : Img} {c : ℕ} (hg : ∀ i j, g.px i j = 0 ∨ g.px i j = c)
    (r i j : ℕ) :
    (maxFilter r g).px i j = 0 ∨ (maxFilter r g).px i j = c := by
  unfold maxFilter
  dsimp only
  apply foldr_max_mem_or_zero
  intro x hx
  obtain ⟨di, _, rfl⟩ := List.mem_map.mp hx
  apply foldr_max_mem_or_zero
  intro y hy
  obtain ⟨dj, _, rfl⟩ := List.mem_map.mp hy
  exact hg _ _

theorem maxFilter_corner {g : Img} {c : ℕ} (hle : ∀ i j, g.px i j ≤ c)
    (hc : g.px 0 0 = c) (r : ℕ) :
    (maxFilter r g).px 0 0 = c := by
  apply le_antisymm (maxFilter_le hle r 0 0)
  unfold maxFilter
  dsimp only
  have hsample : pxClamped g (((0:ℕ):ℤ) + ((r:ℕ):ℤ) - (r:ℤ))
      (((0:ℕ):ℤ) + ((r:ℕ):ℤ) - (r:ℤ)) = c := by
    have e : (((0:ℕ):ℤ) + ((r:ℕ):ℤ) - (r:ℤ)) = 0 := by push_cast; ring
    rw [e]
    unfold pxClamped
    have e1 : (min ((g.h:ℤ) - 1) (max 0 (0:ℤ))).toNat = 0 := by omega
    have e2 : (min ((g.w:ℤ) - 1) (max 0 (0:ℤ))).toNat = 0 := by omega
    rw [e1, e2, hc]
  have hrmem : r ∈ List.range (2*r+1) := List.mem_range.mpr (by omega)
  refine le_trans ?_ (le_foldr_max (List.mem_map.mpr ⟨r, hrmem, rfl⟩))
  refine le_trans ?_ (le_foldr_max (List.mem_map.mpr ⟨r, hrmem, rfl⟩))
  exact le_of_eq hsample.symm

theorem v2EdgeGrid_uniform_vals (w h c : ℕ) (hw : 1 ≤ w) (hh : 1 ≤ h) (hc : c ≤ 255) :
    (∀ i j, (v2EdgeGrid (Img.uniform w h c)).px i j = 0 ∨
      (v2EdgeGrid (Img.uniform w h c)).px i j = c) ∧
    (v2EdgeGrid (Img.uniform w h c)).px 0 0 = c := by
  unfold v2EdgeGrid
  rw [contrast2_uniform w h c hw hh hc]
  constructor
  · intro i j
    exact maxFilter_vals (findEdges_uniform_vals w h c) 1 i j
  · apply maxFilter_corner
    · intro i j
      rcases findEdges_uniform_vals w h c i j with h0 | h0 <;> omega
    · exact findEdges_uniform_corner w h c

theorem px_mem_pixelList {g : Img} {i j : ℕ} (hi : i < g.h) (hj : j < g.w) :
    g.px i j ∈ pixelList g := by
  unfold pixelList
  rw [List.mem_flatten]
  exact ⟨(List.range g.w).map (g.px i),
    List.mem_map.mpr ⟨i, List.mem_range.mpr hi, rfl⟩,
    List.mem_map.mpr ⟨j, List.mem_range.mpr hj, rfl⟩⟩

theorem pixelList_forall {g : Img} {P : ℕ → Prop} (h : ∀ i j, P (g.px i j)) :
    ∀ v ∈ pixelList g, P v := by
  intro v hv
  unfold pixelList at hv
  rw [List.mem_flatten] at hv
  obtain ⟨row, hrow, hvrow⟩ := hv
  obtain ⟨i, _, rfl⟩ := List.mem_map.mp hrow
  obtain ⟨j, _, rfl⟩ := List.mem_map.mp hvrow
  exact h i j

/-- The linear-interpolation percentile of a nonempty constant list is that
constant, for any in-range percentage. -/
theorem npPercentile_const {xs : List ℕ} {c : ℕ} (hne : xs ≠ [])
    (hall : ∀ x ∈ xs, x = c) {q : ℚ} (hq1 : q ≤ 100) :
    npPercentile xs q = some (c:ℚ) := by
  cases xs with
  | nil => exact absurd rfl hne
  | cons x0 rest =>
    have hsall : ∀ x ∈ (x0 :: rest).insertionSort (· ≤ ·), x = c := fun x hx =>
      hall x ((List.perm_insertionSort _ _).mem_iff.mp hx)
    unfold npPercentile
    dsimp only
    set s := (x0 :: rest).insertionSort (· ≤ ·) with hs
    set pos : ℚ := ((s.length : ℚ) - 1) * q / 100 with hposdef
    have hslen : s.length = (x0 :: rest).length := (List.perm_insertionSort _ _).length_eq
    have hn1 : 1 ≤ s.length := by rw [hslen]; simp
    have hcast1 : (1:ℚ) ≤ (s.length:ℚ) := by exact_mod_cast hn1
    have hposle : pos ≤ (s.length:ℚ) - 1 := by
      rw [hposdef]
      have h1 : (0:ℚ) ≤ (s.length:ℚ) - 1 := by linarith
      calc ((s.length:ℚ) - 1) * q / 100 ≤ ((s.length:ℚ) - 1) * 100 / 100 := by gcongr
      _ = (s.length:ℚ) - 1 := by ring
    have hi_lt : ⌊pos⌋.toNat < s.length := by
      have h1 : ⌊pos⌋ ≤ ⌊((s.length:ℚ) - 1)⌋ := Int.floor_mono hposle
      have h2 : ⌊((s.length:ℚ) - 1)⌋ = (s.length:ℤ) - 1 := by
        rw [show ((s.length:ℚ) - 1) = (((s.length:ℤ) - 1 : ℤ):ℚ) by push_cast; ring,
          Int.floor_intCast]
      omega
    have hlo : s.getD ⌊pos⌋.toNat 0 = c := by
      rw [List.getD_eq_getElem s 0 hi_lt]
      exact hsall _ (List.getElem_mem _)
    have hhi : s.getD (⌊pos⌋.toNat + 1) (s.getD ⌊pos⌋.toNat 0) = c := by
      by_cases hlt : ⌊pos⌋.toNat + 1 < s.length
      · rw [List.getD_eq_getElem s _ hlt]
        exact hsall _ (List.getElem_mem _)
      · rw [List.getD_eq_default s _ (by omega)]
        exact hlo
    rw [hhi, hlo]
    congr 1
    ring

theorem v2Threshold_edge_uniform (w h c : ℕ)
    (hw : 1 ≤ w) (hh : 1 ≤ h) (hc1 : 1 ≤ c) (hc : c ≤ 255) :
    v2Threshold (v2EdgeGrid (Img.uniform w h c)) = some (c:ℚ) := by
  obtain ⟨hvals, hcorner⟩ := v2EdgeGrid_uniform_vals w h c hw hh hc
  unfold v2Threshold
  apply npPercentile_const
  · apply List.ne_nil_of_mem (a := c)
    rw [List.mem_filter]
    refine ⟨?_, decide_eq_true (by omega)⟩
    have hmem := px_mem_pixelList (g := v2EdgeGrid (Img.uniform w h c))
      (i := 0) (j := 0) hh hw
    rw [hcorner] at hmem
    exact hmem
  · intro x hx
    rw [List.mem_filter] at hx
    obtain ⟨hxmem, hxpos⟩ := hx
    rcases pixelList_forall (P := fun v => v = 0 ∨ v = c) hvals x hxmem with h0 | h0
    · rw [h0] at hxpos
      simp at hxpos
    · exact h0
  · norm_num

theorem v2QualRows_edge_uniform (w h c : ℕ)
    (hw : 1 ≤ w) (hh : 1 ≤ h) (hc : c ≤ 255) :
    v2QualRows (v2EdgeGrid (Img.uniform w h c)) (c:ℚ) = [] := by
  obtain ⟨hvals, _⟩ := v2EdgeGrid_uniform_vals w h c hw hh hc
  unfold v2QualRows whereIdx
  apply List.filter_eq_nil_iff.mpr
  intro a _
  have hcount : rowCount (v2StrongMask (v2EdgeGrid (Img.uniform w h c)) (c:ℚ))
      (v2EdgeGrid (Img.uniform w h c)).w a = 0 := by
    unfold rowCount
    apply List.countP_eq_zero.mpr
    intro x _
    unfold v2StrongMask
    simp only [decide_eq_true_eq, not_lt]
    rcases hvals a x with h0 | h0
    · rw [h0]
      positivity
    · rw [h0]
  rw [hcount]
  simp only [Nat.cast_zero, decide_eq_true_eq, not_lt]
  positivity

theorem v2QualCols_edge_uniform (w h c : ℕ)
    (hw : 1 ≤ w) (hh : 1 ≤ h) (hc : c ≤ 255) :
    v2QualCols (v2EdgeGrid (Img.uniform w h c)) (c:ℚ) = [] := by
  obtain ⟨hvals, _⟩ := v2EdgeGrid_uniform_vals w h c hw hh hc
  unfold v2QualCols whereIdx
  apply List.filter_eq_nil_iff.mpr
  intro a _
  have hcount : colCount (v2StrongMask (v2EdgeGrid (Img.uniform w h c)) (c:ℚ))
      (v2EdgeGrid (Img.uniform w h c)).h a = 0 := by
    unfold colCount
    apply List.countP_eq_zero.mpr
    intro x _
    unfold v2StrongMask
    simp only [decide_eq_true_eq, not_lt]
    rcases hvals x a with h0 | h0
    · rw [h0]
      positivity
    · rw [h0]
  rw [hcount]
  simp only [Nat.cast_zero, decide_eq_true_eq, not_lt]
  positivity

/-- The edge strategy falls back on every uniform image of positive
intensity (at intensity zero the positive-percentile raises instead). -/
theorem findCardByEdgesImg_uniform (W H w h c : ℕ) (ratio : ℚ) (mp : ℕ)
    (hw : 1 ≤ w) (hh : 1 ≤ h) (hc1 : 1 ≤ c) (hc : c ≤ 255) :
    findCardByEdgesImg W H (Img.uniform w h c) ratio mp =
      some (fallbackCenterCrop W H) := by
  unfold findCardByEdgesImg findCardByEdges
  rw [v2Threshold_edge_uniform w h c hw hh hc1 hc]
  simp only [v2QualRows_edge_uniform w h c hw hh hc,
    v2QualCols_edge_uniform w h c hw hh hc]
  rfl

/-- Claim C2 (amended): on every uniform image the brightness strategy
finds an empty qualifying set and returns its center fallback, and so does
the edge strategy of smart_crop_v2 whenever the uniform intensity is
positive (at intensity zero the edge grid is identically zero and the
percentile of the empty positive selection raises instead of falling
back, see the counterexample). -/
theorem c2_amended :
    (∀ (W H w h c : ℕ) (ratio : ℚ) (mp : ℕ),
      findDarkRectangle W H (Img.uniform w h c) ratio mp = autoFallback W H) ∧
    (∀ (W H w h c : ℕ) (ratio : ℚ) (mp : ℕ), 1 ≤ w → 1 ≤ h → 1 ≤ c → c ≤ 255 →
      findCardByEdgesImg W H (Img.uniform w h c) ratio mp =
        some (fallbackCenterCrop W H)) :=
  ⟨findDarkRectangle_uniform,
   fun W H w h c ratio mp hw hh hc1 hc =>
     findCardByEdgesImg_uniform W H w h c ratio mp hw hh hc1 hc⟩

/-- Witness for C2 (amended): a concrete uniform 3x4 image of intensity 7
sends both strategies to their fallbacks. -/
theorem c2_amended_witness :
    findDarkRectangle 9 9 (Img.uniform 3 4 7) 1 3 = autoFallback 9 9 ∧
    findCardByEdgesImg 9 9 (Img.uniform 3 4 7) 1 3 =
      some (fallbackCenterCrop 9 9) :=
  ⟨c2_amended.1 9 9 3 4 7 1 3,
   c2_amended.2 9 9 3 4 7 1 3 (by decide) (by decide) (by decide) (by decide)⟩

/-! ## C10: the np.any variants compute an exact bounding box -/

theorem firstLast_of_mem {l : List ℕ} {x : ℕ} (hx : x ∈ l) :
    ∃ a b, firstLast l = some (a, b) := by
  cases l with
  | nil => simp at hx
  | cons y t =>
    rcases hg : (y :: t).getLast? with _ | b
    · simp at hg
    · refine ⟨y, b, ?_⟩
      unfold firstLast
      rw [hg]
      rfl

/-- Rows qualified by np.any: with one mask-true pixel in the canvas, the
first/last qualifying rows exist, bound every mask-true pixel, and each is
hit by a mask-true pixel. -/
theorem any_rows_bounds {n m : ℕ} {p : ℕ → ℕ → Bool} {i0 j0 : ℕ}
    (hi0 : i0 < n) (hj0 : j0 < m) (hp : p i0 j0 = true) :
    ∃ t b, firstLast (whereIdx n (fun i => (List.range m).any (fun j => p i j)))
        = some (t, b) ∧
      (∀ i j, i < n → j < m → p i j = true → t ≤ i ∧ i ≤ b) ∧
      (∃ j < m, p t j = true) ∧ (∃ j < m, p b j = true) := by
  set q : ℕ → Bool := fun i => (List.range m).any (fun j => p i j) with hq
  have hqi : ∀ i, q i = true ↔ ∃ j < m, p i j = true := by
    intro i
    rw [hq]
    simp [List.any_eq_true, List.mem_range]
  have hmem : i0 ∈ whereIdx n q :=
    mem_whereIdx.mpr ⟨hi0, (hqi i0).mpr ⟨j0, hj0, hp⟩⟩
  obtain ⟨t, b, hfl⟩ := firstLast_of_mem hmem
  refine ⟨t, b, hfl, ?_, ?_, ?_⟩
  · intro i j hi hj hpij
    have hmemi : i ∈ whereIdx n q := mem_whereIdx.mpr ⟨hi, (hqi i).mpr ⟨j, hj, hpij⟩⟩
    obtain ⟨hh, hg⟩ := firstLast_eq_some hfl
    exact ⟨head?_le_of_pairwise (whereIdx_pairwise n q) hh hmemi,
           le_getLast?_of_pairwise (whereIdx_pairwise n q) hg hmemi⟩
  · exact (hqi t).mp (firstLast_whereIdx_bounds hfl).2.2.1
  · exact (hqi b).mp (firstLast_whereIdx_bounds hfl).2.2.2

/-- Transposed form of `any_rows_bounds`, for columns. -/
theorem any_cols_bounds {n m : ℕ} {p : ℕ → ℕ → Bool} {i0 j0 : ℕ}
    (hi0 : i0 < n) (hj0 : j0 < m) (hp : p i0 j0 = true) :
    ∃ l r, firstLast (whereIdx m (fun j => (List.range n).any (fun i => p i j)))
        = some (l, r) ∧
      (∀ i j, i < n → j < m → p i j = true → l ≤ j ∧ j ≤ r) ∧
      (∃ i < n, p i l = true) ∧ (∃ i < n, p i r = true) := by
  obtain ⟨l, r, hfl, hin, hl, hr⟩ := any_rows_bounds (n := m) (m := n)
    (p := fun j i => p i j) hj0 hi0 hp
  exact ⟨l, r, hfl, fun i j hi hj hpij => hin j i hj hi hpij, hl, hr⟩

/-- Claim C10: in crop_card and smart_crop_card, which qualify a row or
column by the presence of ANY mask-true pixel, the pre-padding estimate is
exactly the bounding box of the mask-true pixels — every mask-true pixel
lies between the first and last qualifying rows and columns, each of the
four extreme indices is hit by a mask-true pixel, and a single mask-true
pixel anywhere forces the non-fallback branch (in crop_card,
find_card_boundaries returns a box rather than None). -/
theorem c10_any_bounding_box :
    (∀ (img : Img) (padding i0 j0 : ℕ), i0 < img.h → j0 < img.w →
      ccDarkMask img i0 j0 = true →
      ∃ t b l r,
        firstLast (ccAnyRows img) = some (t, b) ∧
        firstLast (ccAnyCols img) = some (l, r) ∧
        (∀ i j, i < img.h → j < img.w → ccDarkMask img i j = true →
          t ≤ i ∧ i ≤ b ∧ l ≤ j ∧ j ≤ r) ∧
        (∃ j < img.w, ccDarkMask img t j = true) ∧
        (∃ j < img.w, ccDarkMask img b j = true) ∧
        (∃ i < img.h, ccDarkMask img i l = true) ∧
        (∃ i < img.h, ccDarkMask img i r = true) ∧
        findCardBoundaries img padding ≠ none) ∧
    (∀ (edge : Img) (thr : ℚ) (i0 j0 : ℕ), i0 < edge.h → j0 < edge.w →
      scStrongMask edge thr i0 j0 = true →
      ∃ t b l r,
        firstLast (scAnyRows edge thr) = some (t, b) ∧
        firstLast (scAnyCols edge thr) = some (l, r) ∧
        (∀ i j, i < edge.h → j < edge.w → scStrongMask edge thr i j = true →
          t ≤ i ∧ i ≤ b ∧ l ≤ j ∧ j ≤ r) ∧
        (∃ j < edge.w, scStrongMask edge thr t j = true) ∧
        (∃ j < edge.w, scStrongMask edge thr b j = true) ∧
        (∃ i < edge.h, scStrongMask edge thr i l = true) ∧
        (∃ i < edge.h, scStrongMask edge thr i r = true)) := by
  constructor
  · intro img padding i0 j0 hi0 hj0 hp
    obtain ⟨t, b, hrfl, hrin, hrt, hrb⟩ :=
      any_rows_bounds (p := ccDarkMask img) hi0 hj0 hp
    obtain ⟨l, r, hcfl, hcin, hcl, hcr⟩ :=
      any_cols_bounds (p := ccDarkMask img) hi0 hj0 hp
    refine ⟨t, b, l, r, hrfl, hcfl, ?_, hrt, hrb, hcl, hcr, ?_⟩
    · intro i j hi hj hpij
      obtain ⟨h1, h2⟩ := hrin i j hi hj hpij
      obtain ⟨h3, h4⟩ := hcin i j hi hj hpij
      exact ⟨h1, h2, h3, h4⟩
    · intro hnone
      unfold findCardBoundaries ccAnyRows ccAnyCols at hnone
      rw [hrfl, hcfl] at hnone
      simp at hnone
  · intro edge thr i0 j0 hi0 hj0 hp
    obtain ⟨t, b, hrfl, hrin, hrt, hrb⟩ :=
      any_rows_bounds (p := scStrongMask edge thr) hi0 hj0 hp
    obtain ⟨l, r, hcfl, hcin, hcl, hcr⟩ :=
      any_cols_bounds (p := scStrongMask edge thr) hi0 hj0 hp
    refine ⟨t, b, l, r, hrfl, hcfl, ?_, hrt, hrb, hcl, hcr⟩
    intro i j hi hj hpij
    obtain ⟨h1, h2⟩ := hrin i j hi hj hpij
    obtain ⟨h3, h4⟩ := hcin i j hi hj hpij
    exact ⟨h1, h2, h3, h4⟩

/-- Witness for C10: the single dark pixel of `imgDot` forces crop_card
past its fallback, and a strong pixel of a sparse grid yields qualifying
rows for smart_crop_card. -/
theorem c10_any_bounding_box_witness :
    ccDarkMask imgDot 5 5 = true ∧ findCardBoundaries imgDot 10 ≠ none ∧
    scStrongMask gridSparse 5 0 0 = true ∧
    (∃ t b, firstLast (scAnyRows gridSparse 5) = some (t, b)) := by
  have hp : ccDarkMask imgDot 5 5 = true := of_decide_eq_true (by with_unfolding_all rfl)
  have hs : scStrongMask gridSparse 5 0 0 = true :=
    of_decide_eq_true (by with_unfolding_all rfl)
  obtain ⟨t, b, l, r, _, _, _, _, _, _, _, hnn⟩ :=
    c10_any_bounding_box.1 imgDot 10 5 5 (by decide) (by decide) hp
  obtain ⟨t', b', l', r', hrfl', _, _, _, _, _, _⟩ :=
    c10_any_bounding_box.2 gridSparse 5 0 0 (by decide) (by decide) hs
  exact ⟨hp, hnn, hs, ⟨t', b', hrfl'⟩⟩

end CardCrop
